import Mathlib

/-!
# AES-256-XTS example (`example/openssl_aes_xts.c`)

A shallow embedding of the six C functions of `openssl_aes_xts.c`
(`handleErrors`, `initialize`, `cleanup`, `encrypt`, `decrypt` and the loop
inside `encrypt`) over an abstract cryptographic backend.

* The OpenSSL entry points the file calls are the fields of `Backend σ`, each
  an arbitrary state transformer on a backend state `σ`; nothing is assumed
  about them unless a theorem says so.
* A C buffer is the list of the bytes found at the pointer. The `plaintext`
  pointer of `encrypt` either points to a buffer of its own or is the
  `ciphertext` pointer itself (`Source`); the loop of `encrypt` reads the
  plaintext through the pointer anew in every iteration.
* `int` is `Int`, with the one addition of the source (`+=`) wrapped to 32 bits.
* Every external call is appended to a trace, with its arguments and status.
* `abort()` ends the process: a run is either `returned v` or `aborted`.
-/

namespace AesXts

/-! ## Data -/

/-- One `unsigned char`. -/
abbrev Byte := Fin 256

/-- The bytes found at an `unsigned char *`. -/
abbrev Bytes := List Byte

/-- The cipher descriptor obtained from `EVP_aes_256_xts()`. -/
inductive Cipher where
  | aes_256_xts
  deriving DecidableEq, Repr

/-- Two's-complement wrap of an integer to a 32-bit C `int`. -/
def wrapInt (x : Int) : Int := (x + 2147483648) % 4294967296 - 2147483648

/-- The C addition `a + b` on `int`. -/
def addInt (a b : Int) : Int := wrapInt (a + b)

/-- Store `data` at offset `off` of a buffer (`memcpy(buf + off, data, n)`).
Cells of the region that were never written read as `0`. -/
def writeAt (buf : Bytes) (off : Nat) (data : Bytes) : Bytes :=
  (List.range (max buf.length (off + data.length))).map fun i =>
    if off ≤ i ∧ i < off + data.length then data.getD (i - off) 0 else buf.getD i 0

/-- What `EVP_*Update` and `EVP_*Final_ex` hand back: the status, the length
stored through `outl`, the bytes stored through `out`, and the new backend state. -/
structure CipherOut (σ : Type) where
  ret : Int
  outl : Int
  written : Bytes
  state : σ

/-- The external library, as state transformers on a backend state `σ`.
A context handle is a pointer value, `0` being `NULL`. The `ENGINE *impl`
argument of the `Init_ex` calls is `NULL` at every call site and is left out. -/
structure Backend (σ : Type) where
  ERR_print_errors_fp : σ → σ
  ERR_load_crypto_strings : σ → σ
  OpenSSL_add_all_algorithms : σ → σ
  EVP_cleanup : σ → σ
  ERR_free_strings : σ → σ
  EVP_CIPHER_CTX_new : σ → Nat × σ
  EVP_CIPHER_CTX_free : Nat → σ → σ
  EVP_EncryptInit_ex : Nat → Option Cipher → Option Bytes → Option Bytes → σ → Int × σ
  EVP_EncryptUpdate : Nat → Bytes → Int → σ → CipherOut σ
  EVP_EncryptFinal_ex : Nat → σ → CipherOut σ
  EVP_DecryptInit_ex : Nat → Option Cipher → Option Bytes → Option Bytes → σ → Int × σ
  EVP_DecryptUpdate : Nat → Bytes → Int → σ → CipherOut σ
  EVP_DecryptFinal_ex : Nat → σ → CipherOut σ

/-- One external call as it appears in a trace, with its arguments and, for the
calls whose status the source tests, the value that came back. -/
inductive Call where
  | ERR_print_errors_fp
  | abort
  | ERR_load_crypto_strings
  | OpenSSL_add_all_algorithms
  | EVP_cleanup
  | ERR_free_strings
  | EVP_CIPHER_CTX_new (ctx : Nat)
  | EVP_CIPHER_CTX_free (ctx : Nat)
  | EVP_EncryptInit_ex (ctx : Nat) (type : Option Cipher) (key iv : Option Bytes) (ret : Int)
  | EVP_EncryptUpdate (ctx : Nat) (input : Bytes) (inl : Int) (ret : Int)
  | EVP_EncryptFinal_ex (ctx : Nat) (ret : Int)
  | EVP_DecryptInit_ex (ctx : Nat) (type : Option Cipher) (key iv : Option Bytes) (ret : Int)
  | EVP_DecryptUpdate (ctx : Nat) (input : Bytes) (inl : Int) (ret : Int)
  | EVP_DecryptFinal_ex (ctx : Nat) (ret : Int)
  deriving DecidableEq, Repr

/-- The status test of the source: `!(ctx = ...)` for the context, `1 != ...`
for the cipher calls. Calls whose result is not tested count as successful. -/
def Call.succeeded : Call → Bool
  | .EVP_CIPHER_CTX_new ctx => decide (ctx ≠ 0)
  | .EVP_EncryptInit_ex _ _ _ _ ret => decide (ret = 1)
  | .EVP_EncryptUpdate _ _ _ ret => decide (ret = 1)
  | .EVP_EncryptFinal_ex _ ret => decide (ret = 1)
  | .EVP_DecryptInit_ex _ _ _ _ ret => decide (ret = 1)
  | .EVP_DecryptUpdate _ _ _ ret => decide (ret = 1)
  | .EVP_DecryptFinal_ex _ ret => decide (ret = 1)
  | _ => true

/-- `EVP_EncryptUpdate` calls. -/
def Call.isEncryptUpdate : Call → Bool
  | .EVP_EncryptUpdate _ _ _ _ => true
  | _ => false

/-- `EVP_EncryptFinal_ex` calls. -/
def Call.isEncryptFinal : Call → Bool
  | .EVP_EncryptFinal_ex _ _ => true
  | _ => false

/-- `EVP_CIPHER_CTX_free` calls. -/
def Call.isFree : Call → Bool
  | .EVP_CIPHER_CTX_free _ => true
  | _ => false

/-- The calls made by `initialize` and `cleanup`. -/
def Call.isGlobal : Call → Bool
  | .ERR_load_crypto_strings => true
  | .OpenSSL_add_all_algorithms => true
  | .EVP_cleanup => true
  | .ERR_free_strings => true
  | _ => false

/-- The calls made by `cleanup`. -/
def Call.isCleanup : Call → Bool
  | .EVP_cleanup => true
  | .ERR_free_strings => true
  | _ => false

/-- The running process: the backend state and the calls issued so far. -/
structure Machine (σ : Type) where
  lib : σ
  trace : List Call

/-- How a call of `encrypt` or `decrypt` ends. -/
inductive Outcome where
  | returned (value : Int)
  | aborted
  deriving DecidableEq, Repr

/-- The end of a call: its outcome, the process state, and the contents of the
output buffer (`ciphertext` for `encrypt`, `plaintext` for `decrypt`). -/
structure Run (σ : Type) where
  outcome : Outcome
  m : Machine σ
  out : Bytes

/-! ## The source functions -/

variable {σ : Type}

/-- `handleErrors`: print the error queue, then `abort()`. It never returns;
the result is the process state at termination. -/
def handleErrors (b : Backend σ) (m : Machine σ) : Machine σ :=
  let m1 : Machine σ := ⟨b.ERR_print_errors_fp m.lib, m.trace ++ [Call.ERR_print_errors_fp]⟩
  ⟨m1.lib, m1.trace ++ [Call.abort]⟩

/-- The source function `initialize`. -/
def initialize_library (b : Backend σ) (m : Machine σ) : Machine σ :=
  let m1 : Machine σ :=
    ⟨b.ERR_load_crypto_strings m.lib, m.trace ++ [Call.ERR_load_crypto_strings]⟩
  ⟨b.OpenSSL_add_all_algorithms m1.lib, m1.trace ++ [Call.OpenSSL_add_all_algorithms]⟩

/-- The source function `cleanup`. -/
def cleanup (b : Backend σ) (m : Machine σ) : Machine σ :=
  let m1 : Machine σ := ⟨b.EVP_cleanup m.lib, m.trace ++ [Call.EVP_cleanup]⟩
  ⟨b.ERR_free_strings m1.lib, m1.trace ++ [Call.ERR_free_strings]⟩

/-- Where the `plaintext` pointer of `encrypt` points: to a buffer that does not
overlap the `ciphertext` buffer, or to the `ciphertext` buffer itself (an
in-place call, `plaintext == ciphertext`). -/
inductive Source where
  | separate (plaintext : Bytes)
  | inPlace

/-- The bytes found at the `plaintext` pointer, given what the `ciphertext`
buffer holds at that moment. -/
def Source.read : Source → Bytes → Bytes
  | Source.separate plaintext, _ => plaintext
  | Source.inPlace, ciphertext => ciphertext

/-- The variables of `encrypt` that live across iterations of its loop. -/
structure LoopState (σ : Type) where
  m : Machine σ
  ciphertext : Bytes
  len : Int
  ciphertext_len : Int

/-- One pass through a loop body: fall through to the next iteration, or end
in `handleErrors` with the process state and buffer at termination. -/
inductive Step (σ : Type) where
  | next (st : LoopState σ)
  | halt (m : Machine σ) (ciphertext : Bytes)

/-- The body of the `for` loop of `encrypt` (lines 42-55); `plaintext` is what
is found at the `plaintext` pointer when the iteration starts. The backend stores
its output through the pointer it is given whatever status it returns, so the
buffer is updated before the status is tested. The pointer `ciphertext + len`
is the offset `len` of the buffer (offset `0` should `len` be negative). -/
def encryptBody (b : Backend σ) (ctx : Nat) (plaintext : Bytes) (plaintext_len : Int)
    (iv : Bytes) (st : LoopState σ) : Step σ :=
  let r := b.EVP_EncryptInit_ex ctx none none (some iv) st.m.lib
  let m1 : Machine σ := ⟨r.2, st.m.trace ++ [Call.EVP_EncryptInit_ex ctx none none (some iv) r.1]⟩
  if r.1 ≠ 1 then Step.halt (handleErrors b m1) st.ciphertext else
  let u := b.EVP_EncryptUpdate ctx plaintext plaintext_len m1.lib
  let m2 : Machine σ :=
    ⟨u.state, m1.trace ++ [Call.EVP_EncryptUpdate ctx plaintext plaintext_len u.ret]⟩
  let c2 := writeAt st.ciphertext 0 u.written
  if u.ret ≠ 1 then Step.halt (handleErrors b m2) c2 else
  let len := u.outl
  let ciphertext_len := len
  let f := b.EVP_EncryptFinal_ex ctx m2.lib
  let m3 : Machine σ := ⟨f.state, m2.trace ++ [Call.EVP_EncryptFinal_ex ctx f.ret]⟩
  let c3 := writeAt c2 len.toNat f.written
  if f.ret ≠ 1 then Step.halt (handleErrors b m3) c3 else
  Step.next ⟨m3, c3, f.outl, addInt ciphertext_len f.outl⟩

/-- The `for` loop of `encrypt`; the numeral is the number of iterations left.
Every iteration reads the plaintext through the pointer: for an in-place call
that is what the previous iteration left in the buffer. -/
def encryptLoop (b : Backend σ) (ctx : Nat) (src : Source) (plaintext_len : Int)
    (iv : Bytes) : Nat → LoopState σ → Step σ
  | 0, st => Step.next st
  | k + 1, st =>
    match encryptBody b ctx (src.read st.ciphertext) plaintext_len iv st with
    | Step.next st1 => encryptLoop b ctx src plaintext_len iv k st1
    | Step.halt m c => Step.halt m c

/-- The function `encrypt` with the bound of its loop as a parameter. `len` and
`ciphertext_len` are indeterminate before the loop; they start at `0` here and
are assigned in the first iteration before they are read. -/
def encryptIter (iters : Nat) (b : Backend σ) (m0 : Machine σ) (src : Source)
    (plaintext_len : Int) (key iv ciphertext : Bytes) : Run σ :=
  let m1 := initialize_library b m0
  let r := b.EVP_CIPHER_CTX_new m1.lib
  let ctx := r.1
  let m2 : Machine σ := ⟨r.2, m1.trace ++ [Call.EVP_CIPHER_CTX_new ctx]⟩
  if ctx = 0 then ⟨Outcome.aborted, handleErrors b m2, ciphertext⟩ else
  let k := b.EVP_EncryptInit_ex ctx (some Cipher.aes_256_xts) (some key) none m2.lib
  let m3 : Machine σ :=
    ⟨k.2, m2.trace ++ [Call.EVP_EncryptInit_ex ctx (some Cipher.aes_256_xts) (some key) none k.1]⟩
  if k.1 ≠ 1 then ⟨Outcome.aborted, handleErrors b m3, ciphertext⟩ else
  match encryptLoop b ctx src plaintext_len iv iters ⟨m3, ciphertext, 0, 0⟩ with
  | Step.halt m c => ⟨Outcome.aborted, m, c⟩
  | Step.next st =>
    let m4 : Machine σ :=
      ⟨b.EVP_CIPHER_CTX_free ctx st.m.lib, st.m.trace ++ [Call.EVP_CIPHER_CTX_free ctx]⟩
    let m5 := cleanup b m4
    ⟨Outcome.returned st.ciphertext_len, m5, st.ciphertext⟩

/-- The source function `encrypt` (lines 20-62), called with a plaintext buffer
that does not overlap the ciphertext buffer: the loop runs 1000000 times. -/
def encrypt (b : Backend σ) (m0 : Machine σ) (plaintext : Bytes) (plaintext_len : Int)
    (key iv ciphertext : Bytes) : Run σ :=
  encryptIter 1000000 b m0 (Source.separate plaintext) plaintext_len key iv ciphertext

/-- The source function `decrypt` (lines 64-103). -/
def decrypt (b : Backend σ) (m0 : Machine σ) (ciphertext : Bytes) (ciphertext_len : Int)
    (key iv plaintext : Bytes) : Run σ :=
  let m1 := initialize_library b m0
  let r := b.EVP_CIPHER_CTX_new m1.lib
  let ctx := r.1
  let m2 : Machine σ := ⟨r.2, m1.trace ++ [Call.EVP_CIPHER_CTX_new ctx]⟩
  if ctx = 0 then ⟨Outcome.aborted, handleErrors b m2, plaintext⟩ else
  let k := b.EVP_DecryptInit_ex ctx (some Cipher.aes_256_xts) (some key) (some iv) m2.lib
  let m3 : Machine σ :=
    ⟨k.2, m2.trace ++
      [Call.EVP_DecryptInit_ex ctx (some Cipher.aes_256_xts) (some key) (some iv) k.1]⟩
  if k.1 ≠ 1 then ⟨Outcome.aborted, handleErrors b m3, plaintext⟩ else
  let u := b.EVP_DecryptUpdate ctx ciphertext ciphertext_len m3.lib
  let m4 : Machine σ :=
    ⟨u.state, m3.trace ++ [Call.EVP_DecryptUpdate ctx ciphertext ciphertext_len u.ret]⟩
  let p4 := writeAt plaintext 0 u.written
  if u.ret ≠ 1 then ⟨Outcome.aborted, handleErrors b m4, p4⟩ else
  let len := u.outl
  let plaintext_len := len
  let f := b.EVP_DecryptFinal_ex ctx m4.lib
  let m5 : Machine σ := ⟨f.state, m4.trace ++ [Call.EVP_DecryptFinal_ex ctx f.ret]⟩
  let p5 := writeAt p4 len.toNat f.written
  if f.ret ≠ 1 then ⟨Outcome.aborted, handleErrors b m5, p5⟩ else
  let plaintext_len := addInt plaintext_len f.outl
  let m6 : Machine σ :=
    ⟨b.EVP_CIPHER_CTX_free ctx m5.lib, m5.trace ++ [Call.EVP_CIPHER_CTX_free ctx]⟩
  let m7 := cleanup b m6
  ⟨Outcome.returned plaintext_len, m7, p5⟩

/-! ## Assumptions on the backend -/

/-- What a cipher context holds, as far as the cipher calls depend on it: the
key, the iv of the last initialisation, and the input fed since then. -/
structure CtxView where
  key : Option Bytes
  iv : Option Bytes
  fed : Bytes

/-- The backend `b` implements a length-preserving tweakable cipher `enc`/`dec`
the way the EVP interface exposes AES-256-XTS: with a 64-byte key, a 16-byte iv
and at least 16 bytes of input every call succeeds, `Update` stores the whole
result and reports the input length, `Final_ex` stores nothing and reports `0`,
and `dec` inverts `enc`. Nothing is required of it on other inputs. A backend
that may refuse a key or fail to allocate is not of this kind; the predicate
serves to compute the runs of the concrete backend below. -/
structure XtsBackend (b : Backend σ) (view : σ → Nat → CtxView)
    (enc dec : Bytes → Bytes → Bytes → Bytes) : Prop where
  new_ok : ∀ s : σ, (b.EVP_CIPHER_CTX_new s).1 ≠ 0
  enc_key : ∀ (c : Nat) (k : Bytes) (s : σ), k.length = 64 →
    (b.EVP_EncryptInit_ex c (some Cipher.aes_256_xts) (some k) none s).1 = 1 ∧
    (view (b.EVP_EncryptInit_ex c (some Cipher.aes_256_xts) (some k) none s).2 c).key = some k
  enc_iv : ∀ (c : Nat) (k v : Bytes) (s : σ), (view s c).key = some k → v.length = 16 →
    (b.EVP_EncryptInit_ex c none none (some v) s).1 = 1 ∧
    view (b.EVP_EncryptInit_ex c none none (some v) s).2 c = ⟨some k, some v, []⟩
  enc_update : ∀ (c : Nat) (k v input : Bytes) (inl : Int) (s : σ),
    view s c = ⟨some k, some v, []⟩ → 16 ≤ inl → inl ≤ input.length →
    (b.EVP_EncryptUpdate c input inl s).ret = 1 ∧
    (b.EVP_EncryptUpdate c input inl s).outl = inl ∧
    (b.EVP_EncryptUpdate c input inl s).written = enc k v (input.take inl.toNat) ∧
    (view (b.EVP_EncryptUpdate c input inl s).state c).key = some k
  enc_final : ∀ (c : Nat) (k : Bytes) (s : σ), (view s c).key = some k →
    (b.EVP_EncryptFinal_ex c s).ret = 1 ∧ (b.EVP_EncryptFinal_ex c s).outl = 0 ∧
    (b.EVP_EncryptFinal_ex c s).written = [] ∧
    (view (b.EVP_EncryptFinal_ex c s).state c).key = some k
  dec_init : ∀ (c : Nat) (k v : Bytes) (s : σ), k.length = 64 → v.length = 16 →
    (b.EVP_DecryptInit_ex c (some Cipher.aes_256_xts) (some k) (some v) s).1 = 1 ∧
    view (b.EVP_DecryptInit_ex c (some Cipher.aes_256_xts) (some k) (some v) s).2 c =
      ⟨some k, some v, []⟩
  dec_update : ∀ (c : Nat) (k v input : Bytes) (inl : Int) (s : σ),
    view s c = ⟨some k, some v, []⟩ → 16 ≤ inl → inl ≤ input.length →
    (b.EVP_DecryptUpdate c input inl s).ret = 1 ∧
    (b.EVP_DecryptUpdate c input inl s).outl = inl ∧
    (b.EVP_DecryptUpdate c input inl s).written = dec k v (input.take inl.toNat) ∧
    (view (b.EVP_DecryptUpdate c input inl s).state c).key = some k
  dec_final : ∀ (c : Nat) (k : Bytes) (s : σ), (view s c).key = some k →
    (b.EVP_DecryptFinal_ex c s).ret = 1 ∧ (b.EVP_DecryptFinal_ex c s).outl = 0 ∧
    (b.EVP_DecryptFinal_ex c s).written = []
  enc_length : ∀ k v p : Bytes, (enc k v p).length = p.length
  dec_enc : ∀ k v p : Bytes, k.length = 64 → v.length = 16 → 16 ≤ p.length →
    dec k v (enc k v p) = p

/-- State of the concrete backend. -/
structure ToyState where
  loaded : Bool
  live : Nat
  key : Option Bytes
  iv : Option Bytes
  fed : Bytes
  deriving DecidableEq, Repr

/-- The stand-in cipher: shift every byte by the first key and iv bytes. -/
def toyEnc (k v p : Bytes) : Bytes := p.map fun x => x + k.headD 0 + v.headD 0

/-- The inverse shift. -/
def toyDec (k v p : Bytes) : Bytes := p.map fun x => x - v.headD 0 - k.headD 0

/-- The `Init_ex` of the concrete backend: keep what is given, reset the input. -/
def toyInit (key iv : Option Bytes) (s : ToyState) : Int × ToyState :=
  (1, { s with
        key := (match key with | some k => some k | none => s.key),
        iv := (match iv with | some v => some v | none => s.iv),
        fed := [] })

/-- The `Update` of the concrete backend for the direction `f`. -/
def toyUpdate (f : Bytes → Bytes → Bytes → Bytes) (input : Bytes) (inl : Int)
    (s : ToyState) : CipherOut ToyState :=
  match s.key, s.iv with
  | some k, some v =>
    if 16 ≤ inl then
      ⟨1, inl, f k v (input.take inl.toNat), { s with fed := s.fed ++ input.take inl.toNat }⟩
    else ⟨0, 0, [], s⟩
  | _, _ => ⟨0, 0, [], s⟩

/-- The concrete backend. -/
def toy : Backend ToyState where
  ERR_print_errors_fp := fun s => s
  ERR_load_crypto_strings := fun s => { s with loaded := true }
  OpenSSL_add_all_algorithms := fun s => { s with loaded := true }
  EVP_cleanup := fun s => { s with loaded := false }
  ERR_free_strings := fun s => { s with loaded := false }
  EVP_CIPHER_CTX_new := fun s => (1, { s with live := s.live + 1, key := none, iv := none, fed := [] })
  EVP_CIPHER_CTX_free := fun _ s => { s with live := s.live - 1, key := none, iv := none, fed := [] }
  EVP_EncryptInit_ex := fun _ _ key iv s => toyInit key iv s
  EVP_EncryptUpdate := fun _ input inl s => toyUpdate toyEnc input inl s
  EVP_EncryptFinal_ex := fun _ s => ⟨1, 0, [], s⟩
  EVP_DecryptInit_ex := fun _ _ key iv s => toyInit key iv s
  EVP_DecryptUpdate := fun _ input inl s => toyUpdate toyDec input inl s
  EVP_DecryptFinal_ex := fun _ s => ⟨1, 0, [], s⟩

/-- The concrete backend out of memory: `EVP_CIPHER_CTX_new` returns `NULL`. -/
def toyNoMem : Backend ToyState :=
  { toy with EVP_CIPHER_CTX_new := fun s => (0, s) }

/-- The concrete backend with the key check of the library: the encryption
initialisation refuses a key whose two halves are equal. -/
def toyStrict : Backend ToyState :=
  { toy with
    EVP_EncryptInit_ex := fun _ _ key iv s =>
      match key with
      | some k => if k.take 32 = k.drop 32 then (0, s) else toyInit key iv s
      | none => toyInit key iv s }

/-- How the concrete backend is viewed: its single context slot. -/
def toyView (s : ToyState) (_ : Nat) : CtxView := ⟨s.key, s.iv, s.fed⟩

/-- A fresh process: library not initialised, no context, empty trace. -/
def start : Machine ToyState := ⟨⟨false, 0, none, none, []⟩, []⟩

/-- A key of 64 zero bytes. -/
def key64 : Bytes := List.replicate 64 0

/-- An iv of 16 zero bytes. -/
def iv16 : Bytes := List.replicate 16 0

/-- The 16 bytes of the ASCII string 0123456789ABCDEF. -/
def pt16 : Bytes := [48, 49, 50, 51, 52, 53, 54, 55, 56, 57, 65, 66, 67, 68, 69, 70]

/-- The first 15 bytes of `pt16`. -/
def pt15 : Bytes := [48, 49, 50, 51, 52, 53, 54, 55, 56, 57, 65, 66, 67, 68, 69]

/-- An output buffer of 16 zero bytes. -/
def buf16 : Bytes := List.replicate 16 0

/-- A 64-byte key whose two halves differ: 32 bytes `1`, then 32 bytes `2`. -/
def keyAB : Bytes := List.replicate 32 1 ++ List.replicate 32 2

/-- A tweak of 16 bytes `2`. -/
def tweak16 : Bytes := List.replicate 16 2

/-! ## Observations on runs and traces -/

/-- What the caller can see of a pass through the loop: the value of
`ciphertext_len` if the loop went through, and the ciphertext buffer. -/
def Step.obs : Step σ → Option Int × Bytes
  | Step.next st => (some st.ciphertext_len, st.ciphertext)
  | Step.halt _ c => (none, c)

/-- The three calls of one successful iteration of the loop of `encrypt`. -/
def iterCalls (ctx : Nat) (plaintext : Bytes) (plaintext_len : Int) (iv : Bytes) : List Call :=
  [Call.EVP_EncryptInit_ex ctx none none (some iv) 1,
   Call.EVP_EncryptUpdate ctx plaintext plaintext_len 1,
   Call.EVP_EncryptFinal_ex ctx 1]

/-- Successful calls that are neither a release of the context nor part of
`initialize` or `cleanup`. -/
def Quiet (l : List Call) : Prop :=
  ∀ e ∈ l, e.succeeded = true ∧ e.isFree = false ∧ e.isGlobal = false

/-- The calls after `initialize` of a run that ends in `handleErrors`: quiet
successful calls, one failed call, the error print and `abort`. -/
def EndsInAbort (l : List Call) : Prop :=
  ∃ (pre : List Call) (bad : Call),
    l = pre ++ [bad, Call.ERR_print_errors_fp, Call.abort] ∧ Quiet pre ∧
    bad.succeeded = false ∧ bad.isFree = false ∧ bad.isGlobal = false

/-- The calls of a run of `encrypt` that returns, for a loop of `iters` iterations. -/
def encryptCalls (iters ctx : Nat) (plaintext : Bytes) (plaintext_len : Int)
    (key iv : Bytes) : List Call :=
  [Call.ERR_load_crypto_strings, Call.OpenSSL_add_all_algorithms, Call.EVP_CIPHER_CTX_new ctx,
    Call.EVP_EncryptInit_ex ctx (some Cipher.aes_256_xts) (some key) none 1] ++
  (List.replicate iters (iterCalls ctx plaintext plaintext_len iv)).flatten ++
  [Call.EVP_CIPHER_CTX_free ctx, Call.EVP_cleanup, Call.ERR_free_strings]

/-- The calls of a run of `decrypt` that returns. -/
def decryptCalls (ctx : Nat) (ciphertext : Bytes) (ciphertext_len : Int)
    (key iv : Bytes) : List Call :=
  [Call.ERR_load_crypto_strings, Call.OpenSSL_add_all_algorithms, Call.EVP_CIPHER_CTX_new ctx,
    Call.EVP_DecryptInit_ex ctx (some Cipher.aes_256_xts) (some key) (some iv) 1,
    Call.EVP_DecryptUpdate ctx ciphertext ciphertext_len 1,
    Call.EVP_DecryptFinal_ex ctx 1,
    Call.EVP_CIPHER_CTX_free ctx, Call.EVP_cleanup, Call.ERR_free_strings]

/-- What the `EVP_DecryptUpdate` call of `decrypt` hands back, when `decrypt`
gets that far: the call made on the context and in the state that
`initialize`, `EVP_CIPHER_CTX_new` and `EVP_DecryptInit_ex` leave. -/
def decryptUpdateOut (b : Backend σ) (s : σ) (ciphertext : Bytes) (ciphertext_len : Int)
    (key iv : Bytes) : CipherOut σ :=
  let m1 := initialize_library b ⟨s, []⟩
  let r := b.EVP_CIPHER_CTX_new m1.lib
  let k := b.EVP_DecryptInit_ex r.1 (some Cipher.aes_256_xts) (some key) (some iv) r.2
  b.EVP_DecryptUpdate r.1 ciphertext ciphertext_len k.2

/-- What the `EVP_DecryptFinal_ex` call of `decrypt` hands back, when `decrypt`
gets that far. -/
def decryptFinalOut (b : Backend σ) (s : σ) (ciphertext : Bytes) (ciphertext_len : Int)
    (key iv : Bytes) : CipherOut σ :=
  let m1 := initialize_library b ⟨s, []⟩
  let r := b.EVP_CIPHER_CTX_new m1.lib
  b.EVP_DecryptFinal_ex r.1 (decryptUpdateOut b s ciphertext ciphertext_len key iv).state

/-- The backend state that one iteration of the loop of `encrypt` leaves when
it is started in state `s` and goes through, with a plaintext buffer of its own. -/
def iterationState (b : Backend σ) (ctx : Nat) (plaintext : Bytes) (plaintext_len : Int)
    (iv : Bytes) (s : σ) : σ :=
  (b.EVP_EncryptFinal_ex ctx (b.EVP_EncryptUpdate ctx plaintext plaintext_len
    (b.EVP_EncryptInit_ex ctx none none (some iv) s).2).state).state

/-- The context handle that `encrypt` obtains. -/
def encryptCtx (b : Backend σ) (s : σ) : Nat :=
  (b.EVP_CIPHER_CTX_new (initialize_library b ⟨s, []⟩).lib).1

/-- What the key initialisation of `encrypt` hands back, when `encrypt` gets
that far: status and backend state. -/
def encryptKeyInit (b : Backend σ) (s : σ) (key : Bytes) : Int × σ :=
  b.EVP_EncryptInit_ex (encryptCtx b s) (some Cipher.aes_256_xts) (some key) none
    (b.EVP_CIPHER_CTX_new (initialize_library b ⟨s, []⟩).lib).2

/-- What the iv initialisation of the first iteration of `encrypt` hands back,
when `encrypt` gets that far. -/
def encryptFirstIvInit (b : Backend σ) (s : σ) (key iv : Bytes) : Int × σ :=
  b.EVP_EncryptInit_ex (encryptCtx b s) none none (some iv) (encryptKeyInit b s key).2

/-- What the `EVP_EncryptUpdate` call of the first iteration of `encrypt` hands
back, when `encrypt` gets that far. -/
def encryptFirstUpdate (b : Backend σ) (s : σ) (plaintext : Bytes) (plaintext_len : Int)
    (key iv : Bytes) : CipherOut σ :=
  b.EVP_EncryptUpdate (encryptCtx b s) plaintext plaintext_len (encryptFirstIvInit b s key iv).2

/-- What the `EVP_EncryptUpdate` call of iteration `k + 1` of `encrypt` hands
back, when `encrypt` gets that far with a plaintext buffer of its own: the call
made in the state that the key initialisation, `k` full iterations and the iv
initialisation of this iteration leave. -/
def iterUpdateOut (k : Nat) (b : Backend σ) (s : σ) (plaintext : Bytes)
    (plaintext_len : Int) (key iv : Bytes) : CipherOut σ :=
  b.EVP_EncryptUpdate (encryptCtx b s) plaintext plaintext_len
    (b.EVP_EncryptInit_ex (encryptCtx b s) none none (some iv)
      ((iterationState b (encryptCtx b s) plaintext plaintext_len iv)^[k]
        (encryptKeyInit b s key).2)).2

/-- What the `EVP_EncryptFinal_ex` call of iteration `k + 1` of `encrypt` hands
back, when `encrypt` gets that far. -/
def iterFinalOut (k : Nat) (b : Backend σ) (s : σ) (plaintext : Bytes)
    (plaintext_len : Int) (key iv : Bytes) : CipherOut σ :=
  b.EVP_EncryptFinal_ex (encryptCtx b s) (iterUpdateOut k b s plaintext plaintext_len key iv).state

/-- What the `EVP_EncryptUpdate` call of the last of the 1000000 iterations of
`encrypt` hands back, when `encrypt` gets that far. -/
def encryptUpdateOut (b : Backend σ) (s : σ) (plaintext : Bytes) (plaintext_len : Int)
    (key iv : Bytes) : CipherOut σ :=
  iterUpdateOut 999999 b s plaintext plaintext_len key iv

/-- What the `EVP_EncryptFinal_ex` call of the last of the 1000000 iterations
of `encrypt` hands back, when `encrypt` gets that far. -/
def encryptFinalOut (b : Backend σ) (s : σ) (plaintext : Bytes) (plaintext_len : Int)
    (key iv : Bytes) : CipherOut σ :=
  iterFinalOut 999999 b s plaintext plaintext_len key iv

/-- The calls issued when a pass through the loop ends, either way. -/
def Step.trace : Step σ → List Call
  | Step.next st => st.m.trace
  | Step.halt m _ => m.trace

/-! ## Buffers -/

theorem writeAt_length (buf : Bytes) (off : Nat) (data : Bytes) :
    (writeAt buf off data).length = max buf.length (off + data.length) := by
  simp [writeAt]

theorem writeAt_getD (buf : Bytes) (off : Nat) (data : Bytes) (i : Nat) :
    (writeAt buf off data).getD i 0 =
      if off ≤ i ∧ i < off + data.length then data.getD (i - off) 0 else buf.getD i 0 := by
  by_cases hi : i < max buf.length (off + data.length)
  · simp [writeAt, List.getD_eq_getElem?_getD, List.getElem?_map, List.getElem?_range hi]
  · have h1 : buf.length ≤ i := by omega
    have h2 : ¬ (off ≤ i ∧ i < off + data.length) := by omega
    have h3 : (writeAt buf off data).length ≤ i := by rw [writeAt_length]; omega
    simp [List.getD_eq_getElem?_getD, List.getElem?_eq_none h3, List.getElem?_eq_none h1, h2]

theorem bytes_ext (a c : Bytes) (hl : a.length = c.length)
    (h : ∀ i, a.getD i 0 = c.getD i 0) : a = c := by
  apply List.ext_getElem hl
  intro i h1 h2
  have := h i
  simpa [List.getD_eq_getElem?_getD, List.getElem?_eq_getElem h1,
    List.getElem?_eq_getElem h2] using this

/-- Writing the same two pieces at the same two places a second time changes nothing. -/
theorem writeAt_twice (c w1 w2 : Bytes) (l : Nat) :
    writeAt (writeAt (writeAt (writeAt c 0 w1) l w2) 0 w1) l w2 =
      writeAt (writeAt c 0 w1) l w2 := by
  apply bytes_ext
  · simp only [writeAt_length]; omega
  · intro i
    simp only [writeAt_getD]
    split_ifs <;> rfl

theorem quiet_iterCalls (ctx : Nat) (pt : Bytes) (n : Int) (iv : Bytes) :
    Quiet (iterCalls ctx pt n iv) := by
  intro e he
  simp only [iterCalls, List.mem_cons, List.mem_singleton, List.not_mem_nil, or_false] at he
  rcases he with rfl | rfl | rfl <;> simp [Call.succeeded, Call.isFree, Call.isGlobal]

theorem quiet_append {l1 l2 : List Call} (h1 : Quiet l1) (h2 : Quiet l2) : Quiet (l1 ++ l2) := by
  intro e he
  rcases List.mem_append.mp he with h | h
  · exact h1 e h
  · exact h2 e h

theorem quiet_nil : Quiet [] := by
  intro e he
  cases he

/-- One iteration either appends its three successful calls, or ends in
`handleErrors` after a failed call. -/
theorem encryptBody_trace (b : Backend σ) (ctx : Nat) (pt : Bytes) (n : Int) (iv : Bytes)
    (st : LoopState σ) :
    (∀ st1, encryptBody b ctx pt n iv st = Step.next st1 →
        st1.m.trace = st.m.trace ++ iterCalls ctx pt n iv) ∧
    (∀ m c, encryptBody b ctx pt n iv st = Step.halt m c →
        ∃ tl, m.trace = st.m.trace ++ tl ∧ EndsInAbort tl) := by
  constructor
  · intro st1 h
    simp only [encryptBody] at h
    split_ifs at h with h1 h2 h3
    simp only [Step.next.injEq] at h
    subst h
    simp only [not_not] at h1 h2 h3
    simp [iterCalls, h1, h2, h3]
  · intro m c h
    simp only [encryptBody] at h
    split_ifs at h with h1 h2 h3
    · simp only [Step.halt.injEq] at h
      obtain ⟨rfl, -⟩ := h
      refine ⟨_, ?_, ⟨[], Call.EVP_EncryptInit_ex ctx none none (some iv)
        (b.EVP_EncryptInit_ex ctx none none (some iv) st.m.lib).1, rfl, quiet_nil, ?_, rfl, rfl⟩⟩
      · simp [handleErrors]
      · simpa [Call.succeeded] using h1
    · simp only [Step.halt.injEq] at h
      obtain ⟨rfl, -⟩ := h
      simp only [not_not] at h1
      refine ⟨_, ?_, ⟨[Call.EVP_EncryptInit_ex ctx none none (some iv) 1],
        Call.EVP_EncryptUpdate ctx pt n (b.EVP_EncryptUpdate ctx pt n
          (b.EVP_EncryptInit_ex ctx none none (some iv) st.m.lib).2).ret, rfl, ?_, ?_, rfl, rfl⟩⟩
      · simp [handleErrors, h1]
      · intro e he
        simp only [List.mem_singleton] at he
        subst he
        simp [Call.succeeded, Call.isFree, Call.isGlobal]
      · simpa [Call.succeeded] using h2
    · simp only [Step.halt.injEq] at h
      obtain ⟨rfl, -⟩ := h
      simp only [not_not] at h1 h2
      refine ⟨_, ?_, ⟨[Call.EVP_EncryptInit_ex ctx none none (some iv) 1,
        Call.EVP_EncryptUpdate ctx pt n 1],
        Call.EVP_EncryptFinal_ex ctx (b.EVP_EncryptFinal_ex ctx (b.EVP_EncryptUpdate ctx pt n
          (b.EVP_EncryptInit_ex ctx none none (some iv) st.m.lib).2).state).ret,
        rfl, ?_, ?_, rfl, rfl⟩⟩
      · simp [handleErrors, h1, h2]
      · intro e he
        simp only [List.mem_cons, List.mem_singleton, List.not_mem_nil, or_false] at he
        rcases he with rfl | rfl <;> simp [Call.succeeded, Call.isFree, Call.isGlobal]
      · simpa [Call.succeeded] using h3

theorem quiet_replicate (k : Nat) (l : List Call) (h : Quiet l) :
    Quiet (List.replicate k l).flatten := by
  induction k with
  | zero => simpa using quiet_nil
  | succ k ih =>
    rw [List.replicate_succ, List.flatten_cons]
    exact quiet_append h ih

/-- A loop that goes through has appended `k` successful iterations. -/
theorem encryptLoop_next_trace (b : Backend σ) (ctx : Nat) (pt : Bytes) (n : Int) (iv : Bytes) :
    ∀ (k : Nat) (st st1 : LoopState σ),
      encryptLoop b ctx (Source.separate pt) n iv k st = Step.next st1 →
      st1.m.trace = st.m.trace ++ (List.replicate k (iterCalls ctx pt n iv)).flatten := by
  intro k
  induction k with
  | zero =>
    intro st st1 h
    simp only [encryptLoop, Step.next.injEq] at h
    subst h
    simp
  | succ k ih =>
    intro st st1 h
    simp only [encryptLoop, Source.read] at h
    cases hb : encryptBody b ctx pt n iv st with
    | next st2 =>
      rw [hb] at h
      have h2 := ih st2 st1 h
      have h3 := (encryptBody_trace b ctx pt n iv st).1 st2 hb
      rw [h2, h3, List.replicate_succ, List.flatten_cons, List.append_assoc]
    | halt m c =>
      rw [hb] at h
      cases h

/-- A loop that stops has run quiet iterations and then ended in `handleErrors`. -/
theorem encryptLoop_halt_trace (b : Backend σ) (ctx : Nat) (pt : Bytes) (n : Int) (iv : Bytes) :
    ∀ (k : Nat) (st : LoopState σ) (m : Machine σ) (c : Bytes),
      encryptLoop b ctx (Source.separate pt) n iv k st = Step.halt m c →
      ∃ tl, m.trace = st.m.trace ++ tl ∧ EndsInAbort tl := by
  intro k
  induction k with
  | zero =>
    intro st m c h
    simp only [encryptLoop, Source.read] at h
    cases h
  | succ k ih =>
    intro st m c h
    simp only [encryptLoop, Source.read] at h
    cases hb : encryptBody b ctx pt n iv st with
    | next st2 =>
      rw [hb] at h
      obtain ⟨tl, h2, pre, bad, rfl, hq, hbad⟩ := ih st2 m c h
      have h3 := (encryptBody_trace b ctx pt n iv st).1 st2 hb
      refine ⟨iterCalls ctx pt n iv ++ (pre ++ [bad, Call.ERR_print_errors_fp, Call.abort]), ?_,
        ⟨iterCalls ctx pt n iv ++ pre, bad, ?_, quiet_append (quiet_iterCalls ctx pt n iv) hq, hbad⟩⟩
      · rw [h2, h3, List.append_assoc]
      · rw [List.append_assoc]
    | halt m1 c1 =>
      rw [hb] at h
      simp only [Step.halt.injEq] at h
      obtain ⟨rfl, rfl⟩ := h
      exact (encryptBody_trace b ctx pt n iv st).2 m1 c1 hb

/-- With a plaintext buffer of its own, every iteration reads the same bytes. -/
theorem encryptLoop_succ (b : Backend σ) (ctx : Nat) (pt : Bytes) (n : Int) (iv : Bytes)
    (k : Nat) (st : LoopState σ) :
    encryptLoop b ctx (Source.separate pt) n iv (k + 1) st =
      match encryptBody b ctx pt n iv st with
      | Step.next st1 => encryptLoop b ctx (Source.separate pt) n iv k st1
      | Step.halt m c => Step.halt m c := rfl

/-- When every iteration started in a state satisfying `I` is seen by the caller
as `f` of the buffer, keeps `I`, and `f` repeats itself on its own output, then
any positive number of iterations is seen as `f` of the buffer. -/
theorem encryptLoop_obs (b : Backend σ) (ctx : Nat) (pt : Bytes) (n : Int) (iv : Bytes)
    (I : σ → Prop) (f : Bytes → Option Int × Bytes)
    (hbody : ∀ st : LoopState σ, I st.m.lib →
      (encryptBody b ctx pt n iv st).obs = f st.ciphertext ∧
      ∀ st1, encryptBody b ctx pt n iv st = Step.next st1 → I st1.m.lib)
    (hidem : ∀ c l c1, f c = (some l, c1) → f c1 = (some l, c1)) :
    ∀ (k : Nat) (st : LoopState σ), I st.m.lib →
      (encryptLoop b ctx (Source.separate pt) n iv (k + 1) st).obs = f st.ciphertext := by
  intro k
  induction k with
  | zero =>
    intro st hI
    have h := (hbody st hI).1
    rw [encryptLoop_succ]
    cases hb : encryptBody b ctx pt n iv st with
    | next st1 => rw [hb] at h; simpa [encryptLoop] using h
    | halt m c => rw [hb] at h; simpa using h
  | succ k ih =>
    intro st hI
    have h := hbody st hI
    rw [encryptLoop_succ]
    cases hb : encryptBody b ctx pt n iv st with
    | next st1 =>
      rw [hb] at h
      simp only []
      rw [ih st1 (h.2 st1 rfl)]
      have h1 := h.1
      simp only [Step.obs] at h1
      rw [← h1]
      exact hidem _ _ _ h1.symm
    | halt m c => rw [hb] at h; simpa using h.1

/-! ## Whole calls -/

theorem quiet_cons {e : Call} {l : List Call} (h1 : e.succeeded = true) (h2 : e.isFree = false)
    (h3 : e.isGlobal = false) (h : Quiet l) : Quiet (e :: l) := by
  intro x hx
  rcases List.mem_cons.mp hx with rfl | hx
  · exact ⟨h1, h2, h3⟩
  · exact h x hx

theorem endsInAbort_cons {e : Call} {l : List Call} (h1 : e.succeeded = true)
    (h2 : e.isFree = false) (h3 : e.isGlobal = false) (h : EndsInAbort l) :
    EndsInAbort (e :: l) := by
  obtain ⟨pre, bad, rfl, hq, hb⟩ := h
  exact ⟨e :: pre, bad, rfl, quiet_cons h1 h2 h3 hq, hb⟩

theorem endsInAbort_single {bad : Call} (h1 : bad.succeeded = false) (h2 : bad.isFree = false)
    (h3 : bad.isGlobal = false) : EndsInAbort [bad, Call.ERR_print_errors_fp, Call.abort] :=
  ⟨[], bad, rfl, quiet_nil, h1, h2, h3⟩

/-- A run of `encrypt` (with any loop bound) either returns after exactly the
calls `encryptCalls`, or is aborted after `initialize`, some quiet successful
calls and one failed call. -/
theorem encryptIter_shape (iters : Nat) (b : Backend σ) (m0 : Machine σ) (pt : Bytes) (n : Int)
    (key iv c0 : Bytes) :
    (∃ v, (encryptIter iters b m0 (Source.separate pt) n key iv c0).outcome = Outcome.returned v ∧
      (b.EVP_CIPHER_CTX_new (initialize_library b m0).lib).1 ≠ 0 ∧
      (encryptIter iters b m0 (Source.separate pt) n key iv c0).m.trace = m0.trace ++
        encryptCalls iters (b.EVP_CIPHER_CTX_new (initialize_library b m0).lib).1 pt n key iv) ∨
    ((encryptIter iters b m0 (Source.separate pt) n key iv c0).outcome = Outcome.aborted ∧
      ∃ tl, (encryptIter iters b m0 (Source.separate pt) n key iv c0).m.trace = m0.trace ++
        ([Call.ERR_load_crypto_strings, Call.OpenSSL_add_all_algorithms] ++ tl) ∧
        EndsInAbort tl) := by
  unfold encryptIter
  simp only []
  split_ifs with h1 h2
  · right
    refine ⟨rfl, ?_⟩
    simp only [handleErrors, initialize_library, List.append_assoc, List.cons_append,
      List.nil_append] at h1 ⊢
    exact ⟨_, rfl, endsInAbort_single (by simp [Call.succeeded, h1]) rfl rfl⟩
  · right
    refine ⟨rfl, ?_⟩
    simp only [handleErrors, initialize_library, List.append_assoc, List.cons_append,
      List.nil_append] at h1 h2 ⊢
    exact ⟨_, rfl, endsInAbort_cons (by simp [Call.succeeded, h1]) rfl rfl
      (endsInAbort_single (by simpa [Call.succeeded] using h2) rfl rfl)⟩
  · simp only [not_not] at h2
    split
    · rename_i m c hl
      right
      obtain ⟨tl, ht, hab⟩ := encryptLoop_halt_trace b _ pt n iv iters _ m c hl
      refine ⟨rfl, ?_⟩
      simp only [ht, initialize_library, List.append_assoc, List.cons_append,
        List.nil_append] at h1 h2 ⊢
      exact ⟨_, rfl, endsInAbort_cons (by simp [Call.succeeded, h1]) rfl rfl
        (endsInAbort_cons (by simp [Call.succeeded, h2]) rfl rfl hab)⟩
    · rename_i st hl
      left
      have ht := encryptLoop_next_trace b _ pt n iv iters _ st hl
      refine ⟨_, rfl, h1, ?_⟩
      simp only [cleanup, ht, encryptCalls, h2]
      simp [initialize_library]

/-- A run of `decrypt` either returns after exactly the calls `decryptCalls`, or
is aborted after `initialize`, some quiet successful calls and one failed call. -/
theorem decrypt_shape (b : Backend σ) (m0 : Machine σ) (ct : Bytes) (n : Int)
    (key iv p0 : Bytes) :
    (∃ v, (decrypt b m0 ct n key iv p0).outcome = Outcome.returned v ∧
      (b.EVP_CIPHER_CTX_new (initialize_library b m0).lib).1 ≠ 0 ∧
      (decrypt b m0 ct n key iv p0).m.trace = m0.trace ++
        decryptCalls (b.EVP_CIPHER_CTX_new (initialize_library b m0).lib).1 ct n key iv) ∨
    ((decrypt b m0 ct n key iv p0).outcome = Outcome.aborted ∧
      ∃ tl, (decrypt b m0 ct n key iv p0).m.trace = m0.trace ++
        ([Call.ERR_load_crypto_strings, Call.OpenSSL_add_all_algorithms] ++ tl) ∧
        EndsInAbort tl) := by
  unfold decrypt
  simp only []
  split_ifs with h1 h2 h3 h4
  · right
    refine ⟨rfl, ?_⟩
    simp only [handleErrors, initialize_library, List.append_assoc, List.cons_append,
      List.nil_append] at h1 ⊢
    exact ⟨_, rfl, endsInAbort_single (by simp [Call.succeeded, h1]) rfl rfl⟩
  · right
    refine ⟨rfl, ?_⟩
    simp only [handleErrors, initialize_library, List.append_assoc, List.cons_append,
      List.nil_append] at h1 h2 ⊢
    exact ⟨_, rfl, endsInAbort_cons (by simp [Call.succeeded, h1]) rfl rfl
      (endsInAbort_single (by simpa [Call.succeeded] using h2) rfl rfl)⟩
  · right
    refine ⟨rfl, ?_⟩
    simp only [handleErrors, initialize_library, List.append_assoc, List.cons_append,
      List.nil_append, not_not] at h1 h2 h3 ⊢
    exact ⟨_, rfl, endsInAbort_cons (by simp [Call.succeeded, h1]) rfl rfl
      (endsInAbort_cons (by simp [Call.succeeded, h2]) rfl rfl
        (endsInAbort_single (by simpa [Call.succeeded] using h3) rfl rfl))⟩
  · right
    refine ⟨rfl, ?_⟩
    simp only [handleErrors, initialize_library, List.append_assoc, List.cons_append,
      List.nil_append, not_not] at h1 h2 h3 h4 ⊢
    exact ⟨_, rfl, endsInAbort_cons (by simp [Call.succeeded, h1]) rfl rfl
      (endsInAbort_cons (by simp [Call.succeeded, h2]) rfl rfl
        (endsInAbort_cons (by simp [Call.succeeded, h3]) rfl rfl
          (endsInAbort_single (by simpa [Call.succeeded] using h4) rfl rfl)))⟩
  · left
    simp only [not_not] at h2 h3 h4
    refine ⟨_, rfl, h1, ?_⟩
    simp only [cleanup, decryptCalls, h2, h3, h4]
    simp [initialize_library]

/-! ## Values and buffers -/

theorem wrapInt_of_fits (x : Int) (h1 : -2147483648 ≤ x) (h2 : x < 2147483648) :
    wrapInt x = x := by
  unfold wrapInt
  omega

/-- What the caller sees of `encrypt` is what it sees of the loop, once the
context exists and holds the key. -/
theorem encryptIter_obs (b : Backend σ) (m0 : Machine σ) (src : Source) (n : Int)
    (key iv c0 : Bytes)
    (h1 : (b.EVP_CIPHER_CTX_new (initialize_library b m0).lib).1 ≠ 0)
    (h2 : (b.EVP_EncryptInit_ex (b.EVP_CIPHER_CTX_new (initialize_library b m0).lib).1
      (some Cipher.aes_256_xts) (some key) none
      (b.EVP_CIPHER_CTX_new (initialize_library b m0).lib).2).1 = 1) :
    ∃ st0 : LoopState σ,
      st0.m.lib = (b.EVP_EncryptInit_ex (b.EVP_CIPHER_CTX_new (initialize_library b m0).lib).1
        (some Cipher.aes_256_xts) (some key) none
        (b.EVP_CIPHER_CTX_new (initialize_library b m0).lib).2).2 ∧
      st0.ciphertext = c0 ∧
      ∀ k, ((encryptIter k b m0 src n key iv c0).outcome,
          (encryptIter k b m0 src n key iv c0).out) =
        (match (encryptLoop b (b.EVP_CIPHER_CTX_new (initialize_library b m0).lib).1
            src n iv k st0).obs with
          | (some v, c) => (Outcome.returned v, c)
          | (none, c) => (Outcome.aborted, c)) := by
  refine ⟨⟨⟨(b.EVP_EncryptInit_ex (b.EVP_CIPHER_CTX_new (initialize_library b m0).lib).1
        (some Cipher.aes_256_xts) (some key) none
        (b.EVP_CIPHER_CTX_new (initialize_library b m0).lib).2).2,
      (initialize_library b m0).trace ++
        [Call.EVP_CIPHER_CTX_new (b.EVP_CIPHER_CTX_new (initialize_library b m0).lib).1] ++
        [Call.EVP_EncryptInit_ex (b.EVP_CIPHER_CTX_new (initialize_library b m0).lib).1
          (some Cipher.aes_256_xts) (some key) none 1]⟩, c0, 0, 0⟩, rfl, rfl, ?_⟩
  intro k
  unfold encryptIter
  simp only [h1, h2, ne_eq, not_true_eq_false, if_false]
  generalize encryptLoop b _ src n iv k _ = L
  cases L <;> rfl

/-- One iteration on a backend that implements the cipher: the caller sees the
length `n` and the encrypted input at the start of the buffer. -/
theorem encryptBody_xts (b : Backend σ) (view : σ → Nat → CtxView)
    (enc dec : Bytes → Bytes → Bytes → Bytes) (h : XtsBackend b view enc dec)
    (c : Nat) (pt : Bytes) (n : Int) (key iv : Bytes) (hv : iv.length = 16)
    (hn : 16 ≤ n) (hn2 : n ≤ pt.length) (st : LoopState σ)
    (hI : (view st.m.lib c).key = some key) :
    (encryptBody b c pt n iv st).obs =
      (some (addInt n 0),
        writeAt (writeAt st.ciphertext 0 (enc key iv (pt.take n.toNat))) n.toNat []) ∧
    ∀ st1, encryptBody b c pt n iv st = Step.next st1 → (view st1.m.lib c).key = some key := by
  obtain ⟨a1, a2⟩ := h.enc_iv c key iv st.m.lib hI hv
  obtain ⟨u1, u2, u3, u4⟩ := h.enc_update c key iv pt n _ a2 hn hn2
  obtain ⟨f1, f2, f3, f4⟩ := h.enc_final c key _ u4
  constructor
  · simp only [encryptBody, a1, u1, u2, u3, f1, f2, f3, ne_eq, not_true_eq_false, if_false,
      Step.obs]
  · intro st1 hst
    simp only [encryptBody, a1, u1, f1, ne_eq, not_true_eq_false, if_false,
      Step.next.injEq] at hst
    subst hst
    exact f4

/-- On a backend that implements the cipher, `encrypt` with a positive loop
bound returns `n` and leaves the encrypted input at the start of the buffer. -/
theorem encryptIter_xts (b : Backend σ) (view : σ → Nat → CtxView)
    (enc dec : Bytes → Bytes → Bytes → Bytes) (h : XtsBackend b view enc dec)
    (k : Nat) (m0 : Machine σ) (pt : Bytes) (n : Int) (key iv c0 : Bytes)
    (hk : key.length = 64) (hv : iv.length = 16) (hn : 16 ≤ n) (hn2 : n ≤ pt.length)
    (hmax : n < 2147483648) :
    (encryptIter (k + 1) b m0 (Source.separate pt) n key iv c0).outcome = Outcome.returned n ∧
    (encryptIter (k + 1) b m0 (Source.separate pt) n key iv c0).out =
      writeAt (writeAt c0 0 (enc key iv (pt.take n.toNat))) n.toNat [] := by
  have h1 := h.new_ok (initialize_library b m0).lib
  obtain ⟨h2, h3⟩ := h.enc_key (b.EVP_CIPHER_CTX_new (initialize_library b m0).lib).1 key
    (b.EVP_CIPHER_CTX_new (initialize_library b m0).lib).2 hk
  obtain ⟨st0, e1, e2, hobs⟩ := encryptIter_obs b m0 (Source.separate pt) n key iv c0 h1 h2
  have hloop := encryptLoop_obs b (b.EVP_CIPHER_CTX_new (initialize_library b m0).lib).1 pt n iv
    (fun s => (view s (b.EVP_CIPHER_CTX_new (initialize_library b m0).lib).1).key = some key)
    (fun buf => (some (addInt n 0),
      writeAt (writeAt buf 0 (enc key iv (pt.take n.toNat))) n.toNat []))
    (fun st hI => encryptBody_xts b view enc dec h _ pt n key iv hv hn hn2 st hI)
    (by
      intro c l c1 hc
      simp only [Prod.mk.injEq, Option.some.injEq] at hc ⊢
      obtain ⟨rfl, rfl⟩ := hc
      exact ⟨rfl, writeAt_twice c _ [] _⟩)
    k st0 (by rw [e1]; exact h3)
  have hk := hobs (k + 1)
  rw [hloop] at hk
  simp only [Prod.mk.injEq] at hk
  have hw : addInt n 0 = n := by
    unfold addInt
    rw [Int.add_zero]
    exact wrapInt_of_fits n (by omega) hmax
  rw [hk.1, hk.2, hw, e2]
  exact ⟨rfl, rfl⟩

theorem toyDec_toyEnc (k v p : Bytes) : toyDec k v (toyEnc k v p) = p := by
  unfold toyDec toyEnc
  rw [List.map_map]
  conv_rhs => rw [← List.map_id p]
  apply List.map_congr_left
  intro x _
  simp only [Function.comp_apply, id_eq]
  abel

theorem toy_xts : XtsBackend toy toyView toyEnc toyDec where
  new_ok := by intro s; simp [toy]
  enc_key := by intro c k s _; simp [toy, toyInit, toyView]
  enc_iv := by
    intro c k v s hk _
    simp only [toyView] at hk
    simp [toy, toyInit, toyView, hk]
  enc_update := by
    intro c k v input inl s hv h16 _
    simp only [toyView, CtxView.mk.injEq] at hv
    obtain ⟨h1, h2, h3⟩ := hv
    simp [toy, toyUpdate, toyView, h1, h2, h16]
  enc_final := by intro c k s hk; simpa [toy, toyView] using hk
  dec_init := by intro c k v s _ _; simp [toy, toyInit, toyView]
  dec_update := by
    intro c k v input inl s hv h16 _
    simp only [toyView, CtxView.mk.injEq] at hv
    obtain ⟨h1, h2, h3⟩ := hv
    simp [toy, toyUpdate, toyView, h1, h2, h16]
  dec_final := by intro c k s _; simp [toy]
  enc_length := by intro k v p; simp [toyEnc]
  dec_enc := by intro k v p _ _ _; exact toyDec_toyEnc k v p

theorem countP_flatten_replicate (p : Call → Bool) (k : Nat) (l : List Call) :
    (List.replicate k l).flatten.countP p = k * l.countP p := by
  induction k with
  | zero => simp
  | succ k ih =>
    rw [List.replicate_succ, List.flatten_cons, List.countP_append, ih]
    ring

theorem not_cleanup_of_not_global {e : Call} (h : e.isGlobal = false) : e.isCleanup = false := by
  cases e <;> simp_all [Call.isGlobal, Call.isCleanup]

theorem quiet_countP_free {l : List Call} (h : Quiet l) : l.countP Call.isFree = 0 := by
  rw [List.countP_eq_zero]
  intro e he
  simp [(h e he).2.1]

theorem quiet_countP_cleanup {l : List Call} (h : Quiet l) : l.countP Call.isCleanup = 0 := by
  rw [List.countP_eq_zero]
  intro e he
  simp [not_cleanup_of_not_global (h e he).2.2]

/-- What a trace that ends in `handleErrors` looks like from outside. -/
theorem endsInAbort_facts {tl : List Call} (h : EndsInAbort tl) :
    (∃ e ∈ [Call.ERR_load_crypto_strings, Call.OpenSSL_add_all_algorithms] ++ tl,
      e.succeeded = false) ∧
    (∃ pre, [Call.ERR_load_crypto_strings, Call.OpenSSL_add_all_algorithms] ++ tl =
      pre ++ [Call.ERR_print_errors_fp, Call.abort]) ∧
    ([Call.ERR_load_crypto_strings, Call.OpenSSL_add_all_algorithms] ++ tl).countP
      Call.isFree = 0 ∧
    ([Call.ERR_load_crypto_strings, Call.OpenSSL_add_all_algorithms] ++ tl).countP
      Call.isCleanup = 0 := by
  obtain ⟨pre, bad, rfl, hq, hb1, hb2, hb3⟩ := h
  refine ⟨⟨bad, by simp, hb1⟩,
    ⟨[Call.ERR_load_crypto_strings, Call.OpenSSL_add_all_algorithms] ++ pre ++ [bad], by simp⟩,
    ?_, ?_⟩
  · simp only [List.countP_append, List.countP_cons, List.countP_nil, quiet_countP_free hq, hb2]
    simp [Call.isFree]
  · simp only [List.countP_append, List.countP_cons, List.countP_nil, quiet_countP_cleanup hq,
      not_cleanup_of_not_global hb3]
    simp [Call.isCleanup]

theorem encryptCalls_succeeded (iters c : Nat) (pt : Bytes) (n : Int) (key iv : Bytes)
    (hc : c ≠ 0) : ∀ e ∈ encryptCalls iters c pt n key iv, e.succeeded = true := by
  intro e he
  simp only [encryptCalls, List.mem_append, List.mem_cons, List.mem_singleton,
    List.not_mem_nil, or_false] at he
  rcases he with (((rfl | rfl | rfl | rfl) | he) | (rfl | rfl | rfl))
  all_goals first
    | exact (quiet_replicate iters _ (quiet_iterCalls c pt n iv) e he).1
    | simp [Call.succeeded, hc]

theorem decryptCalls_succeeded (c : Nat) (ct : Bytes) (n : Int) (key iv : Bytes)
    (hc : c ≠ 0) : ∀ e ∈ decryptCalls c ct n key iv, e.succeeded = true := by
  intro e he
  simp only [decryptCalls, List.mem_cons, List.mem_singleton, List.not_mem_nil, or_false] at he
  rcases he with rfl | rfl | rfl | rfl | rfl | rfl | rfl | rfl | rfl <;>
    simp [Call.succeeded, hc]

theorem encryptCalls_counts (iters c : Nat) (pt : Bytes) (n : Int) (key iv : Bytes) :
    (encryptCalls iters c pt n key iv).countP Call.isEncryptUpdate = iters ∧
    (encryptCalls iters c pt n key iv).countP Call.isEncryptFinal = iters := by
  simp [encryptCalls, List.countP_append, List.countP_cons, countP_flatten_replicate, iterCalls,
    Call.isEncryptUpdate, Call.isEncryptFinal]

/-- The calls of a returning `encrypt`: the context is created, used, and
released once at the end, just before `cleanup`. -/
theorem encryptCalls_release (iters c : Nat) (pt : Bytes) (n : Int) (key iv : Bytes) :
    ∃ pre, encryptCalls iters c pt n key iv =
        pre ++ [Call.EVP_CIPHER_CTX_free c, Call.EVP_cleanup, Call.ERR_free_strings] ∧
      Call.EVP_CIPHER_CTX_new c ∈ pre ∧ pre.countP Call.isFree = 0 ∧
      pre.countP Call.isCleanup = 0 := by
  refine ⟨_, rfl, by simp, ?_, ?_⟩
  · simp [List.countP_append, List.countP_cons, countP_flatten_replicate, iterCalls, Call.isFree]
  · simp [List.countP_append, List.countP_cons, countP_flatten_replicate, iterCalls,
      Call.isCleanup]

/-- The calls of a returning `decrypt`: the same discipline. -/
theorem decryptCalls_release (c : Nat) (ct : Bytes) (n : Int) (key iv : Bytes) :
    ∃ pre, decryptCalls c ct n key iv =
        pre ++ [Call.EVP_CIPHER_CTX_free c, Call.EVP_cleanup, Call.ERR_free_strings] ∧
      Call.EVP_CIPHER_CTX_new c ∈ pre ∧ pre.countP Call.isFree = 0 ∧
      pre.countP Call.isCleanup = 0 := by
  refine ⟨[Call.ERR_load_crypto_strings, Call.OpenSSL_add_all_algorithms,
    Call.EVP_CIPHER_CTX_new c,
    Call.EVP_DecryptInit_ex c (some Cipher.aes_256_xts) (some key) (some iv) 1,
    Call.EVP_DecryptUpdate c ct n 1, Call.EVP_DecryptFinal_ex c 1], rfl, by simp, ?_, ?_⟩
  · simp [List.countP_cons, Call.isFree]
  · simp [List.countP_cons, Call.isCleanup]

/-- A returning `encrypt` has run its update and its final once per iteration. -/
theorem encryptIter_counts (iters : Nat) (b : Backend σ) (s : σ) (pt : Bytes) (n : Int)
    (key iv c0 : Bytes) (v : Int)
    (h : (encryptIter iters b ⟨s, []⟩ (Source.separate pt) n key iv c0).outcome = Outcome.returned v) :
    (encryptIter iters b ⟨s, []⟩ (Source.separate pt) n key iv c0).m.trace.countP Call.isEncryptUpdate = iters ∧
    (encryptIter iters b ⟨s, []⟩ (Source.separate pt) n key iv c0).m.trace.countP Call.isEncryptFinal = iters := by
  rcases encryptIter_shape iters b ⟨s, []⟩ pt n key iv c0 with ⟨w, -, -, ht⟩ | ⟨ha, -⟩
  · rw [ht, List.nil_append]
    exact encryptCalls_counts iters _ pt n key iv
  · rw [ha] at h
    cases h

/-- A run of `encrypt` none of whose calls failed has returned. -/
theorem encryptIter_returns (iters : Nat) (b : Backend σ) (s : σ) (pt : Bytes) (n : Int)
    (key iv c0 : Bytes)
    (hok : ∀ e ∈ (encryptIter iters b ⟨s, []⟩ (Source.separate pt) n key iv c0).m.trace,
      e.succeeded = true) :
    ∃ v, (encryptIter iters b ⟨s, []⟩ (Source.separate pt) n key iv c0).outcome =
      Outcome.returned v := by
  rcases encryptIter_shape iters b ⟨s, []⟩ pt n key iv c0 with ⟨w, hw, -, -⟩ | ⟨-, tl, ht, hab⟩
  · exact ⟨w, hw⟩
  · exfalso
    obtain ⟨⟨e, he, hf⟩, -⟩ := endsInAbort_facts hab
    rw [ht, List.nil_append] at hok
    rw [hok e he] at hf
    cases hf

/-- A run of `encrypt` that has returned made only successful calls. -/
theorem encryptIter_succeeded (iters : Nat) (b : Backend σ) (s : σ) (pt : Bytes) (n : Int)
    (key iv c0 : Bytes) (v : Int)
    (h : (encryptIter iters b ⟨s, []⟩ (Source.separate pt) n key iv c0).outcome =
      Outcome.returned v) :
    ∀ e ∈ (encryptIter iters b ⟨s, []⟩ (Source.separate pt) n key iv c0).m.trace,
      e.succeeded = true := by
  rcases encryptIter_shape iters b ⟨s, []⟩ pt n key iv c0 with ⟨w, -, hc, ht⟩ | ⟨ha, -⟩
  · rw [ht, List.nil_append]
    exact encryptCalls_succeeded iters _ pt n key iv hc
  · rw [ha] at h
    cases h

/-- An iteration that goes through leaves the state `iterationState` and has
set `ciphertext_len` to the `int` sum of the two lengths the backend reported. -/
theorem encryptBody_value (b : Backend σ) (c : Nat) (pt : Bytes) (n : Int) (iv : Bytes)
    (st st1 : LoopState σ) (hb : encryptBody b c pt n iv st = Step.next st1) :
    st1.m.lib = iterationState b c pt n iv st.m.lib ∧
    st1.ciphertext_len =
      addInt (b.EVP_EncryptUpdate c pt n (b.EVP_EncryptInit_ex c none none (some iv) st.m.lib).2).outl
        (b.EVP_EncryptFinal_ex c (b.EVP_EncryptUpdate c pt n
          (b.EVP_EncryptInit_ex c none none (some iv) st.m.lib).2).state).outl := by
  simp only [encryptBody] at hb
  split_ifs at hb
  simp only [Step.next.injEq] at hb
  subst hb
  exact ⟨rfl, rfl⟩

/-- The state after a loop that goes through, and the value of `ciphertext_len`
that its last iteration has set. -/
theorem encryptLoop_value (b : Backend σ) (c : Nat) (pt : Bytes) (n : Int) (iv : Bytes) :
    ∀ (k : Nat) (st st1 : LoopState σ),
      encryptLoop b c (Source.separate pt) n iv (k + 1) st = Step.next st1 →
      st1.ciphertext_len =
        addInt (b.EVP_EncryptUpdate c pt n (b.EVP_EncryptInit_ex c none none (some iv)
            ((iterationState b c pt n iv)^[k] st.m.lib)).2).outl
          (b.EVP_EncryptFinal_ex c (b.EVP_EncryptUpdate c pt n
            (b.EVP_EncryptInit_ex c none none (some iv)
              ((iterationState b c pt n iv)^[k] st.m.lib)).2).state).outl := by
  intro k
  induction k with
  | zero =>
    intro st st1 hl
    rw [encryptLoop_succ] at hl
    cases hb : encryptBody b c pt n iv st with
    | next st2 =>
      rw [hb] at hl
      simp only [encryptLoop, Step.next.injEq] at hl
      subst hl
      exact (encryptBody_value b c pt n iv st st2 hb).2
    | halt m cb =>
      rw [hb] at hl
      cases hl
  | succ k ih =>
    intro st st1 hl
    rw [encryptLoop_succ] at hl
    cases hb : encryptBody b c pt n iv st with
    | next st2 =>
      rw [hb] at hl
      have h2 := ih st2 st1 hl
      rw [(encryptBody_value b c pt n iv st st2 hb).1] at h2
      rw [Function.iterate_succ_apply]
      exact h2
    | halt m cb =>
      rw [hb] at hl
      cases hl

/-- A run of `encrypt` that returns, returns the `int` sum of the two lengths
reported in its last iteration. -/
theorem encryptIter_value (b : Backend σ) (k : Nat) (s : σ) (pt : Bytes) (n : Int)
    (key iv c0 : Bytes) (v : Int)
    (hv : (encryptIter (k + 1) b ⟨s, []⟩ (Source.separate pt) n key iv c0).outcome =
      Outcome.returned v) :
    v = addInt (iterUpdateOut k b s pt n key iv).outl (iterFinalOut k b s pt n key iv).outl := by
  by_cases h1 : (b.EVP_CIPHER_CTX_new (initialize_library b ⟨s, []⟩).lib).1 = 0
  · unfold encryptIter at hv
    simp only [h1, if_true, reduceCtorEq] at hv
  by_cases h2 : (b.EVP_EncryptInit_ex (b.EVP_CIPHER_CTX_new (initialize_library b ⟨s, []⟩).lib).1
      (some Cipher.aes_256_xts) (some key) none
      (b.EVP_CIPHER_CTX_new (initialize_library b ⟨s, []⟩).lib).2).1 = 1
  · obtain ⟨st0, e1, -, hobs⟩ := encryptIter_obs b ⟨s, []⟩ (Source.separate pt) n key iv c0 h1 h2
    have ho := hobs (k + 1)
    cases hl : encryptLoop b (b.EVP_CIPHER_CTX_new (initialize_library b ⟨s, []⟩).lib).1
        (Source.separate pt) n iv (k + 1) st0 with
    | next st1 =>
      rw [hl] at ho
      simp only [Step.obs, Prod.mk.injEq] at ho
      have hval := encryptLoop_value b _ pt n iv k st0 st1 hl
      rw [ho.1, Outcome.returned.injEq] at hv
      rw [← hv, hval, e1]
      rfl
    | halt m cb =>
      rw [hl] at ho
      simp only [Step.obs, Prod.mk.injEq] at ho
      rw [ho.1] at hv
      cases hv
  · unfold encryptIter at hv
    simp only [h1, h2, if_false, ne_eq, not_false_eq_true, if_true, reduceCtorEq] at hv

/-- On a backend that accepts every such input, `encrypt` returns `n` and
leaves the encrypted input at the start of the buffer. -/
theorem encrypt_xts (b : Backend σ) (view : σ → Nat → CtxView)
    (enc dec : Bytes → Bytes → Bytes → Bytes) (h : XtsBackend b view enc dec)
    (m0 : Machine σ) (pt : Bytes) (n : Int) (key iv c0 : Bytes)
    (hk : key.length = 64) (hv : iv.length = 16) (hn : 16 ≤ n) (hn2 : n ≤ pt.length)
    (hmax : n < 2147483648) :
    (encrypt b m0 pt n key iv c0).outcome = Outcome.returned n ∧
    (encrypt b m0 pt n key iv c0).out =
      writeAt (writeAt c0 0 (enc key iv (pt.take n.toNat))) n.toNat [] :=
  encryptIter_xts b view enc dec h 999999 m0 pt n key iv c0 hk hv hn hn2 hmax

/-- A run of `encrypt` that has returned made only successful calls. -/
theorem encrypt_succeeded (b : Backend σ) (s : σ) (pt : Bytes) (n : Int)
    (key iv c0 : Bytes) (v : Int)
    (h : (encrypt b ⟨s, []⟩ pt n key iv c0).outcome = Outcome.returned v) :
    ∀ e ∈ (encrypt b ⟨s, []⟩ pt n key iv c0).m.trace, e.succeeded = true :=
  encryptIter_succeeded 1000000 b s pt n key iv c0 v h

/-! ## The in-place call on the concrete backend -/

/-- C2, as stated, fails. On a backend that refuses a key with two equal
halves, as the library does, `encrypt` with the all-zero 64-byte key, a 16-byte
tweak and a 16-byte plaintext returns no length: the key initialisation fails
and the process is aborted. -/
theorem no_length_when_key_refused :
    key64.length = 64 ∧ iv16.length = 16 ∧ pt16.length = 16 ∧
    (encrypt toyStrict start pt16 16 key64 iv16 buf16).outcome ≠ Outcome.returned 16 ∧
    (encrypt toyStrict start pt16 16 key64 iv16 buf16).m.trace =
      [Call.ERR_load_crypto_strings, Call.OpenSSL_add_all_algorithms, Call.EVP_CIPHER_CTX_new 1,
        Call.EVP_EncryptInit_ex 1 (some Cipher.aes_256_xts) (some key64) none 0,
        Call.ERR_print_errors_fp, Call.abort] := by
  decide

/-- C2, amended (returned length). With a plaintext buffer of its own, on any
backend: if no backend call of `encrypt` fails, `encrypt` returns the `int` sum
of the two lengths that `EVP_EncryptUpdate` and `EVP_EncryptFinal_ex` reported
in the last of its 1000000 iterations; so it returns `plaintext_len` whenever
that update reported `plaintext_len` and that final reported `0`, as a
length-preserving mode does. -/
theorem returned_length (b : Backend σ) (s : σ) (plaintext : Bytes) (plaintext_len : Int)
    (key iv cbuf : Bytes)
    (hok : ∀ e ∈ (encrypt b ⟨s, []⟩ plaintext plaintext_len key iv cbuf).m.trace,
      e.succeeded = true) :
    (encrypt b ⟨s, []⟩ plaintext plaintext_len key iv cbuf).outcome =
      Outcome.returned (addInt (encryptUpdateOut b s plaintext plaintext_len key iv).outl
        (encryptFinalOut b s plaintext plaintext_len key iv).outl) ∧
    ((encryptUpdateOut b s plaintext plaintext_len key iv).outl = plaintext_len →
      (encryptFinalOut b s plaintext plaintext_len key iv).outl = 0 →
      -2147483648 ≤ plaintext_len → plaintext_len < 2147483648 →
      (encrypt b ⟨s, []⟩ plaintext plaintext_len key iv cbuf).outcome =
        Outcome.returned plaintext_len) := by
  obtain ⟨v, hret⟩ := encryptIter_returns 1000000 b s plaintext plaintext_len key iv cbuf hok
  have hv := encryptIter_value b 999999 s plaintext plaintext_len key iv cbuf v hret
  have hsum : (encrypt b ⟨s, []⟩ plaintext plaintext_len key iv cbuf).outcome =
      Outcome.returned (addInt (encryptUpdateOut b s plaintext plaintext_len key iv).outl
        (encryptFinalOut b s plaintext plaintext_len key iv).outl) := by
    rw [hv] at hret
    exact hret
  refine ⟨hsum, fun hu hf h1 h2 => ?_⟩
  rw [hsum, hu, hf]
  unfold addInt
  rw [Int.add_zero, wrapInt_of_fits _ h1 h2]

/-- The amended C2 on the concrete backend, for 16 bytes under a key whose
halves differ. -/
theorem returned_length_witness :
    (∀ e ∈ (encrypt toy ⟨start.lib, []⟩ pt16 16 keyAB tweak16 buf16).m.trace,
      e.succeeded = true) ∧
    (encrypt toy ⟨start.lib, []⟩ pt16 16 keyAB tweak16 buf16).outcome =
      Outcome.returned (addInt (encryptUpdateOut toy start.lib pt16 16 keyAB tweak16).outl
        (encryptFinalOut toy start.lib pt16 16 keyAB tweak16).outl) ∧
    (encrypt toy ⟨start.lib, []⟩ pt16 16 keyAB tweak16 buf16).outcome = Outcome.returned 16 :=
  by
  have hret : (encrypt toy ⟨start.lib, []⟩ pt16 16 keyAB tweak16 buf16).outcome =
      Outcome.returned 16 :=
    (encrypt_xts toy toyView toyEnc toyDec toy_xts ⟨start.lib, []⟩ pt16
      16 keyAB tweak16 buf16 (by decide) (by decide) (by decide) (by decide) (by decide)).1
  have hok : ∀ e ∈ (encrypt toy ⟨start.lib, []⟩ pt16 16 keyAB tweak16 buf16).m.trace,
      e.succeeded = true :=
    encrypt_succeeded toy start.lib pt16 16 keyAB tweak16 buf16 16 hret
  exact ⟨hok, (returned_length toy start.lib pt16 16 keyAB tweak16 buf16 hok).1, hret⟩

/-- C3, as stated, fails. When the backend cannot allocate a context `encrypt`
ends in `abort()` right after the error print, and when the backend refuses a
15-byte input `decrypt` ends in `abort()` as well: the process is terminated,
nothing is returned to the caller. -/
theorem failure_is_not_returned :
    (encrypt toyNoMem start pt16 16 key64 iv16 buf16).outcome = Outcome.aborted ∧
    (encrypt toyNoMem start pt16 16 key64 iv16 buf16).m.trace =
      [Call.ERR_load_crypto_strings, Call.OpenSSL_add_all_algorithms, Call.EVP_CIPHER_CTX_new 0,
        Call.ERR_print_errors_fp, Call.abort] ∧
    (decrypt toy start pt15 15 key64 iv16 buf16).outcome = Outcome.aborted ∧
    (decrypt toy start pt15 15 key64 iv16 buf16).m.trace.getLast? = some Call.abort := by
  decide

/-- C3, amended. In `encrypt` and in `decrypt`, whenever a backend call fails
the call does not return: its outcome is the abort, and its last two actions
are the error print and `abort()` of `handleErrors`. -/
theorem failure_aborts (b : Backend σ) (s : σ) (input : Bytes) (len : Int)
    (key iv output : Bytes) :
    ((∃ e ∈ (encrypt b ⟨s, []⟩ input len key iv output).m.trace, e.succeeded = false) →
      (encrypt b ⟨s, []⟩ input len key iv output).outcome = Outcome.aborted ∧
      ∃ pre, (encrypt b ⟨s, []⟩ input len key iv output).m.trace =
        pre ++ [Call.ERR_print_errors_fp, Call.abort]) ∧
    ((∃ e ∈ (decrypt b ⟨s, []⟩ input len key iv output).m.trace, e.succeeded = false) →
      (decrypt b ⟨s, []⟩ input len key iv output).outcome = Outcome.aborted ∧
      ∃ pre, (decrypt b ⟨s, []⟩ input len key iv output).m.trace =
        pre ++ [Call.ERR_print_errors_fp, Call.abort]) := by
  constructor
  · rintro ⟨e, he, hf⟩
    rcases encryptIter_shape 1000000 b ⟨s, []⟩ input len key iv output with
      ⟨w, -, hc, ht⟩ | ⟨ha, tl, ht, hab⟩
    · exfalso
      have he2 := he
      unfold encrypt at he2
      rw [ht, List.nil_append] at he2
      rw [encryptCalls_succeeded 1000000 _ input len key iv hc e he2] at hf
      cases hf
    · refine ⟨ha, ?_⟩
      unfold encrypt
      rw [ht, List.nil_append]
      exact (endsInAbort_facts hab).2.1
  · rintro ⟨e, he, hf⟩
    rcases decrypt_shape b ⟨s, []⟩ input len key iv output with
      ⟨w, -, hc, ht⟩ | ⟨ha, tl, ht, hab⟩
    · exfalso
      rw [ht, List.nil_append] at he
      rw [decryptCalls_succeeded _ input len key iv hc e he] at hf
      cases hf
    · refine ⟨ha, ?_⟩
      rw [ht, List.nil_append]
      exact (endsInAbort_facts hab).2.1

/-- The amended C3 at the allocation failure of `encrypt`. -/
theorem failure_aborts_witness :
    (∃ e ∈ (encrypt toyNoMem ⟨start.lib, []⟩ pt16 16 key64 iv16 buf16).m.trace,
      e.succeeded = false) ∧
    (encrypt toyNoMem ⟨start.lib, []⟩ pt16 16 key64 iv16 buf16).outcome = Outcome.aborted ∧
    ∃ pre, (encrypt toyNoMem ⟨start.lib, []⟩ pt16 16 key64 iv16 buf16).m.trace =
      pre ++ [Call.ERR_print_errors_fp, Call.abort] :=
  ⟨⟨Call.EVP_CIPHER_CTX_new 0, by decide, rfl⟩,
    (failure_aborts toyNoMem start.lib pt16 16 key64 iv16 buf16).1
      ⟨Call.EVP_CIPHER_CTX_new 0, by decide, rfl⟩⟩

/-- C6, as stated, fails. One call of `encrypt` on valid input does not issue
one update and one final: it issues a million of each. -/
theorem encrypt_is_not_single_pass :
    ¬ ((encrypt toy start pt16 16 key64 iv16 buf16).m.trace.countP Call.isEncryptUpdate = 1 ∧
       (encrypt toy start pt16 16 key64 iv16 buf16).m.trace.countP Call.isEncryptFinal = 1) := by
  have hr := (encryptIter_xts toy toyView toyEnc toyDec toy_xts 999999 ⟨start.lib, []⟩ pt16 16
    key64 iv16 buf16 (by decide) (by decide) (by decide) (by decide) (by decide)).1
  have hc := (encryptIter_counts 1000000 toy start.lib pt16 16 key64 iv16 buf16 16 hr).1
  intro h
  have h1 := h.1
  unfold encrypt at h1
  rw [show start = (⟨start.lib, []⟩ : Machine ToyState) from rfl, hc] at h1
  cases h1

/-- C6, amended. Every call of `encrypt` that returns has issued exactly
1000000 `EVP_EncryptUpdate` calls and exactly 1000000 `EVP_EncryptFinal_ex`
calls: the repetition loop is part of `encrypt`. -/
theorem encrypt_runs_the_loop (b : Backend σ) (s : σ) (plaintext : Bytes) (plaintext_len : Int)
    (key iv cbuf : Bytes) (v : Int)
    (h : (encrypt b ⟨s, []⟩ plaintext plaintext_len key iv cbuf).outcome = Outcome.returned v) :
    (encrypt b ⟨s, []⟩ plaintext plaintext_len key iv cbuf).m.trace.countP
      Call.isEncryptUpdate = 1000000 ∧
    (encrypt b ⟨s, []⟩ plaintext plaintext_len key iv cbuf).m.trace.countP
      Call.isEncryptFinal = 1000000 :=
  encryptIter_counts 1000000 b s plaintext plaintext_len key iv cbuf v h

/-- The amended C6 on the concrete backend. -/
theorem encrypt_runs_the_loop_witness :
    (encrypt toy ⟨start.lib, []⟩ pt16 16 key64 iv16 buf16).outcome = Outcome.returned 16 ∧
    (encrypt toy ⟨start.lib, []⟩ pt16 16 key64 iv16 buf16).m.trace.countP
      Call.isEncryptUpdate = 1000000 ∧
    (encrypt toy ⟨start.lib, []⟩ pt16 16 key64 iv16 buf16).m.trace.countP
      Call.isEncryptFinal = 1000000 :=
  ⟨(encryptIter_xts toy toyView toyEnc toyDec toy_xts 999999 ⟨start.lib, []⟩ pt16 16
      key64 iv16 buf16 (by decide) (by decide) (by decide) (by decide) (by decide)).1,
    encrypt_runs_the_loop toy start.lib pt16 16 key64 iv16 buf16 16
      (encryptIter_xts toy toyView toyEnc toyDec toy_xts 999999 ⟨start.lib, []⟩ pt16 16
        key64 iv16 buf16 (by decide) (by decide) (by decide) (by decide) (by decide)).1⟩

/-- C7, as stated, fails. When the backend refuses the 15-byte input, the
context that `encrypt` obtained (handle `1`) is never released: the trace has
the acquisition, no `EVP_CIPHER_CTX_free`, and ends in `abort()`. -/
theorem context_leaks_on_failure :
    Call.EVP_CIPHER_CTX_new 1 ∈ (encrypt toy start pt15 15 key64 iv16 buf16).m.trace ∧
    (encrypt toy start pt15 15 key64 iv16 buf16).m.trace.countP Call.isFree = 0 ∧
    (encrypt toy start pt15 15 key64 iv16 buf16).m.trace.getLast? = some Call.abort := by
  decide

/-- C7, amended. A call of `encrypt` or `decrypt` that returns has released the
context it acquired exactly once, with `EVP_CIPHER_CTX_free` on the handle that
`EVP_CIPHER_CTX_new` gave, as its last action before `cleanup`; a call that is
aborted has not called `EVP_CIPHER_CTX_free` at all. -/
theorem context_release (b : Backend σ) (s : σ) (input : Bytes) (len : Int)
    (key iv output : Bytes) :
    ((∀ v, (encrypt b ⟨s, []⟩ input len key iv output).outcome = Outcome.returned v →
        ∃ c pre, c ≠ 0 ∧ (encrypt b ⟨s, []⟩ input len key iv output).m.trace =
            pre ++ [Call.EVP_CIPHER_CTX_free c, Call.EVP_cleanup, Call.ERR_free_strings] ∧
          Call.EVP_CIPHER_CTX_new c ∈ pre ∧ pre.countP Call.isFree = 0) ∧
      ((encrypt b ⟨s, []⟩ input len key iv output).outcome = Outcome.aborted →
        (encrypt b ⟨s, []⟩ input len key iv output).m.trace.countP Call.isFree = 0)) ∧
    ((∀ v, (decrypt b ⟨s, []⟩ input len key iv output).outcome = Outcome.returned v →
        ∃ c pre, c ≠ 0 ∧ (decrypt b ⟨s, []⟩ input len key iv output).m.trace =
            pre ++ [Call.EVP_CIPHER_CTX_free c, Call.EVP_cleanup, Call.ERR_free_strings] ∧
          Call.EVP_CIPHER_CTX_new c ∈ pre ∧ pre.countP Call.isFree = 0) ∧
      ((decrypt b ⟨s, []⟩ input len key iv output).outcome = Outcome.aborted →
        (decrypt b ⟨s, []⟩ input len key iv output).m.trace.countP Call.isFree = 0)) := by
  constructor
  · unfold encrypt
    rcases encryptIter_shape 1000000 b ⟨s, []⟩ input len key iv output with
      ⟨w, hw, hc, ht⟩ | ⟨ha, tl, ht, hab⟩
    · constructor
      · intro v _
        obtain ⟨pre, e1, e2, e3, -⟩ := encryptCalls_release 1000000
          (b.EVP_CIPHER_CTX_new (initialize_library b ⟨s, []⟩).lib).1 input len key iv
        exact ⟨_, pre, hc, by rw [ht, List.nil_append, e1], e2, e3⟩
      · intro h
        rw [hw] at h
        cases h
    · constructor
      · intro v h
        rw [ha] at h
        cases h
      · intro _
        rw [ht, List.nil_append]
        exact (endsInAbort_facts hab).2.2.1
  · rcases decrypt_shape b ⟨s, []⟩ input len key iv output with
      ⟨w, hw, hc, ht⟩ | ⟨ha, tl, ht, hab⟩
    · constructor
      · intro v _
        obtain ⟨pre, e1, e2, e3, -⟩ := decryptCalls_release
          (b.EVP_CIPHER_CTX_new (initialize_library b ⟨s, []⟩).lib).1 input len key iv
        exact ⟨_, pre, hc, by rw [ht, List.nil_append, e1], e2, e3⟩
      · intro h
        rw [hw] at h
        cases h
    · constructor
      · intro v h
        rw [ha] at h
        cases h
      · intro _
        rw [ht, List.nil_append]
        exact (endsInAbort_facts hab).2.2.1

/-- The amended C7 on the concrete backend: a `decrypt` that returns, and an
`encrypt` that is aborted. -/
theorem context_release_witness :
    (decrypt toy ⟨start.lib, []⟩ pt16 16 key64 iv16 buf16).outcome = Outcome.returned 16 ∧
    (∃ c pre, c ≠ 0 ∧ (decrypt toy ⟨start.lib, []⟩ pt16 16 key64 iv16 buf16).m.trace =
        pre ++ [Call.EVP_CIPHER_CTX_free c, Call.EVP_cleanup, Call.ERR_free_strings] ∧
      Call.EVP_CIPHER_CTX_new c ∈ pre ∧ pre.countP Call.isFree = 0) ∧
    (encrypt toy ⟨start.lib, []⟩ pt15 15 key64 iv16 buf16).outcome = Outcome.aborted ∧
    (encrypt toy ⟨start.lib, []⟩ pt15 15 key64 iv16 buf16).m.trace.countP Call.isFree = 0 :=
  ⟨by decide,
    (context_release toy start.lib pt16 16 key64 iv16 buf16).2.1 16 (by decide),
    by decide,
    (context_release toy start.lib pt15 15 key64 iv16 buf16).1.2 (by decide)⟩

/-- C8, as stated, fails. A `decrypt` on valid input makes exactly the calls
`decryptCalls`, four of which are the library set-up and tear-down of
`initialize` and `cleanup`; and an `encrypt` that is aborted leaves the
library state changed (loaded, where it was not before the call). -/
theorem library_setup_in_every_call :
    (decrypt toy start pt16 16 key64 iv16 buf16).m.trace = decryptCalls 1 pt16 16 key64 iv16 ∧
    (decrypt toy start pt16 16 key64 iv16 buf16).m.trace.countP Call.isGlobal = 4 ∧
    start.lib.loaded = false ∧
    (encrypt toy start pt15 15 key64 iv16 buf16).m.lib.loaded = true := by
  decide

/-- C8, amended. Every call of `encrypt` and of `decrypt` starts by running
`initialize` (`ERR_load_crypto_strings`, `OpenSSL_add_all_algorithms`); a call
that returns ends by running `cleanup` (`EVP_cleanup`, `ERR_free_strings`),
once; a call that is aborted does not run `cleanup`. -/
theorem library_setup_per_call (b : Backend σ) (s : σ) (input : Bytes) (len : Int)
    (key iv output : Bytes) :
    ((encrypt b ⟨s, []⟩ input len key iv output).m.trace.take 2 =
        [Call.ERR_load_crypto_strings, Call.OpenSSL_add_all_algorithms] ∧
      (∀ v, (encrypt b ⟨s, []⟩ input len key iv output).outcome = Outcome.returned v →
        ∃ pre, (encrypt b ⟨s, []⟩ input len key iv output).m.trace =
            pre ++ [Call.EVP_cleanup, Call.ERR_free_strings] ∧
          pre.countP Call.isCleanup = 0) ∧
      ((encrypt b ⟨s, []⟩ input len key iv output).outcome = Outcome.aborted →
        (encrypt b ⟨s, []⟩ input len key iv output).m.trace.countP Call.isCleanup = 0)) ∧
    ((decrypt b ⟨s, []⟩ input len key iv output).m.trace.take 2 =
        [Call.ERR_load_crypto_strings, Call.OpenSSL_add_all_algorithms] ∧
      (∀ v, (decrypt b ⟨s, []⟩ input len key iv output).outcome = Outcome.returned v →
        ∃ pre, (decrypt b ⟨s, []⟩ input len key iv output).m.trace =
            pre ++ [Call.EVP_cleanup, Call.ERR_free_strings] ∧
          pre.countP Call.isCleanup = 0) ∧
      ((decrypt b ⟨s, []⟩ input len key iv output).outcome = Outcome.aborted →
        (decrypt b ⟨s, []⟩ input len key iv output).m.trace.countP Call.isCleanup = 0)) := by
  constructor
  · unfold encrypt
    rcases encryptIter_shape 1000000 b ⟨s, []⟩ input len key iv output with
      ⟨w, hw, hc, ht⟩ | ⟨ha, tl, ht, hab⟩
    · refine ⟨by rw [ht]; rfl, ?_, ?_⟩
      · intro v _
        obtain ⟨pre, e1, -, -, e4⟩ := encryptCalls_release 1000000
          (b.EVP_CIPHER_CTX_new (initialize_library b ⟨s, []⟩).lib).1 input len key iv
        refine ⟨pre ++ [Call.EVP_CIPHER_CTX_free
          (b.EVP_CIPHER_CTX_new (initialize_library b ⟨s, []⟩).lib).1], ?_, ?_⟩
        · rw [ht, List.nil_append, e1]
          simp
        · simp [List.countP_append, List.countP_cons, e4, Call.isCleanup]
      · intro h
        rw [hw] at h
        cases h
    · refine ⟨by rw [ht]; rfl, ?_, ?_⟩
      · intro v h
        rw [ha] at h
        cases h
      · intro _
        rw [ht, List.nil_append]
        exact (endsInAbort_facts hab).2.2.2
  · rcases decrypt_shape b ⟨s, []⟩ input len key iv output with
      ⟨w, hw, hc, ht⟩ | ⟨ha, tl, ht, hab⟩
    · refine ⟨by rw [ht]; rfl, ?_, ?_⟩
      · intro v _
        obtain ⟨pre, e1, -, -, e4⟩ := decryptCalls_release
          (b.EVP_CIPHER_CTX_new (initialize_library b ⟨s, []⟩).lib).1 input len key iv
        refine ⟨pre ++ [Call.EVP_CIPHER_CTX_free
          (b.EVP_CIPHER_CTX_new (initialize_library b ⟨s, []⟩).lib).1], ?_, ?_⟩
        · rw [ht, List.nil_append, e1]
          simp
        · simp [List.countP_append, List.countP_cons, e4, Call.isCleanup]
      · intro h
        rw [hw] at h
        cases h
    · refine ⟨by rw [ht]; rfl, ?_, ?_⟩
      · intro v h
        rw [ha] at h
        cases h
      · intro _
        rw [ht, List.nil_append]
        exact (endsInAbort_facts hab).2.2.2

/-- The amended C8 on the concrete backend: a `decrypt` that returns, and an
`encrypt` that is aborted. -/
theorem library_setup_per_call_witness :
    (decrypt toy ⟨start.lib, []⟩ pt16 16 key64 iv16 buf16).outcome = Outcome.returned 16 ∧
    (∃ pre, (decrypt toy ⟨start.lib, []⟩ pt16 16 key64 iv16 buf16).m.trace =
        pre ++ [Call.EVP_cleanup, Call.ERR_free_strings] ∧ pre.countP Call.isCleanup = 0) ∧
    (encrypt toy ⟨start.lib, []⟩ pt15 15 key64 iv16 buf16).outcome = Outcome.aborted ∧
    (encrypt toy ⟨start.lib, []⟩ pt15 15 key64 iv16 buf16).m.trace.countP Call.isCleanup = 0 :=
  ⟨by decide,
    (library_setup_per_call toy start.lib pt16 16 key64 iv16 buf16).2.2.1 16 (by decide),
    by decide,
    (library_setup_per_call toy start.lib pt15 15 key64 iv16 buf16).1.2.2 (by decide)⟩

/-- C10 (abort or return). `encrypt` returns exactly when every call it made
succeeded, and then it has made the context creation, the key initialisation
and 1000000 rounds of iv initialisation, update and final, all successful, and
nothing else but `initialize`, the release and `cleanup`; when a call fails it
is aborted, the error print and `abort()` being its last actions. The same
holds for `decrypt` with its single initialisation, update and final, and the
value `decrypt` returns is the `int` sum of the two lengths reported by the
update and by the final, which is their sum whenever that fits an `int`. -/
theorem abort_or_return (b : Backend σ) (s : σ) (input : Bytes) (len : Int)
    (key iv output : Bytes) :
    (((∃ v, (encrypt b ⟨s, []⟩ input len key iv output).outcome = Outcome.returned v) ↔
        ∀ e ∈ (encrypt b ⟨s, []⟩ input len key iv output).m.trace, e.succeeded = true) ∧
      ((∃ v, (encrypt b ⟨s, []⟩ input len key iv output).outcome = Outcome.returned v) →
        (encrypt b ⟨s, []⟩ input len key iv output).m.trace = encryptCalls 1000000
          (b.EVP_CIPHER_CTX_new (initialize_library b ⟨s, []⟩).lib).1 input len key iv) ∧
      ((∃ e ∈ (encrypt b ⟨s, []⟩ input len key iv output).m.trace, e.succeeded = false) →
        (encrypt b ⟨s, []⟩ input len key iv output).outcome = Outcome.aborted ∧
        ∃ pre, (encrypt b ⟨s, []⟩ input len key iv output).m.trace =
          pre ++ [Call.ERR_print_errors_fp, Call.abort])) ∧
    (((∃ v, (decrypt b ⟨s, []⟩ input len key iv output).outcome = Outcome.returned v) ↔
        ∀ e ∈ (decrypt b ⟨s, []⟩ input len key iv output).m.trace, e.succeeded = true) ∧
      ((∃ v, (decrypt b ⟨s, []⟩ input len key iv output).outcome = Outcome.returned v) →
        (decrypt b ⟨s, []⟩ input len key iv output).m.trace = decryptCalls
          (b.EVP_CIPHER_CTX_new (initialize_library b ⟨s, []⟩).lib).1 input len key iv) ∧
      ((∃ e ∈ (decrypt b ⟨s, []⟩ input len key iv output).m.trace, e.succeeded = false) →
        (decrypt b ⟨s, []⟩ input len key iv output).outcome = Outcome.aborted ∧
        ∃ pre, (decrypt b ⟨s, []⟩ input len key iv output).m.trace =
          pre ++ [Call.ERR_print_errors_fp, Call.abort]) ∧
      (∀ v, (decrypt b ⟨s, []⟩ input len key iv output).outcome = Outcome.returned v →
        v = addInt (decryptUpdateOut b s input len key iv).outl
              (decryptFinalOut b s input len key iv).outl ∧
        (-2147483648 ≤ (decryptUpdateOut b s input len key iv).outl +
            (decryptFinalOut b s input len key iv).outl →
          (decryptUpdateOut b s input len key iv).outl +
            (decryptFinalOut b s input len key iv).outl < 2147483648 →
          v = (decryptUpdateOut b s input len key iv).outl +
            (decryptFinalOut b s input len key iv).outl))) := by
  constructor
  · unfold encrypt
    rcases encryptIter_shape 1000000 b ⟨s, []⟩ input len key iv output with
      ⟨w, hw, hc, ht⟩ | ⟨ha, tl, ht, hab⟩
    · rw [List.nil_append] at ht
      refine ⟨⟨fun _ => ?_, fun _ => ⟨w, hw⟩⟩, fun _ => ht, ?_⟩
      · rw [ht]
        exact encryptCalls_succeeded 1000000 _ input len key iv hc
      · rintro ⟨e, he, hf⟩
        rw [ht] at he
        rw [encryptCalls_succeeded 1000000 _ input len key iv hc e he] at hf
        cases hf
    · rw [List.nil_append] at ht
      obtain ⟨⟨e, he, hf⟩, hlast, -, -⟩ := endsInAbort_facts hab
      refine ⟨⟨?_, ?_⟩, ?_, fun _ => ⟨ha, by rw [ht]; exact hlast⟩⟩
      · rintro ⟨v, hv⟩
        rw [ha] at hv
        cases hv
      · intro hall
        rw [ht] at hall
        rw [hall e he] at hf
        cases hf
      · rintro ⟨v, hv⟩
        rw [ha] at hv
        cases hv
  · rcases decrypt_shape b ⟨s, []⟩ input len key iv output with
      ⟨w, hw, hc, ht⟩ | ⟨ha, tl, ht, hab⟩
    · rw [List.nil_append] at ht
      refine ⟨⟨fun _ => ?_, fun _ => ⟨w, hw⟩⟩, fun _ => ht, ?_, ?_⟩
      · rw [ht]
        exact decryptCalls_succeeded _ input len key iv hc
      · rintro ⟨e, he, hf⟩
        rw [ht] at he
        rw [decryptCalls_succeeded _ input len key iv hc e he] at hf
        cases hf
      · intro v hv
        have hval : v = addInt (decryptUpdateOut b s input len key iv).outl
            (decryptFinalOut b s input len key iv).outl := by
          unfold decrypt at hv
          simp only [] at hv
          split_ifs at hv
          simp only [Outcome.returned.injEq] at hv
          rw [← hv]
          rfl
        refine ⟨hval, fun h1 h2 => ?_⟩
        rw [hval]
        exact wrapInt_of_fits _ h1 h2
    · rw [List.nil_append] at ht
      obtain ⟨⟨e, he, hf⟩, hlast, -, -⟩ := endsInAbort_facts hab
      refine ⟨⟨?_, ?_⟩, ?_, fun _ => ⟨ha, by rw [ht]; exact hlast⟩, ?_⟩
      · rintro ⟨v, hv⟩
        rw [ha] at hv
        cases hv
      · intro hall
        rw [ht] at hall
        rw [hall e he] at hf
        cases hf
      · rintro ⟨v, hv⟩
        rw [ha] at hv
        cases hv
      · intro v hv
        rw [ha] at hv
        cases hv

/-- C10 on the concrete backend: a `decrypt` that returns the sum `16 + 0`, and
an `encrypt` with a failed call that is aborted. -/
theorem abort_or_return_witness :
    (decrypt toy ⟨start.lib, []⟩ pt16 16 key64 iv16 buf16).outcome = Outcome.returned 16 ∧
    (decryptUpdateOut toy start.lib pt16 16 key64 iv16).outl = 16 ∧
    (decryptFinalOut toy start.lib pt16 16 key64 iv16).outl = 0 ∧
    (16 : Int) = (decryptUpdateOut toy start.lib pt16 16 key64 iv16).outl +
      (decryptFinalOut toy start.lib pt16 16 key64 iv16).outl ∧
    (encrypt toy ⟨start.lib, []⟩ pt15 15 key64 iv16 buf16).outcome = Outcome.aborted :=
  ⟨by decide, by decide, by decide,
    ((abort_or_return toy start.lib pt16 16 key64 iv16 buf16).2.2.2.2 16 (by decide)).2
      (by decide) (by decide),
    ((abort_or_return toy start.lib pt15 15 key64 iv16 buf16).1.2.2
      ⟨Call.EVP_EncryptUpdate 1 pt15 15 0, by decide, rfl⟩).1⟩

/-! ## Input validation -/



/-- The first call of an iteration is the initialisation with the iv. -/
theorem encryptBody_first (b : Backend σ) (c : Nat) (pt : Bytes) (n : Int) (iv : Bytes)
    (st : LoopState σ) :
    ∃ ret tl, (encryptBody b c pt n iv st).trace =
      st.m.trace ++ Call.EVP_EncryptInit_ex c none none (some iv) ret :: tl := by
  refine ⟨(b.EVP_EncryptInit_ex c none none (some iv) st.m.lib).1, ?_⟩
  unfold encryptBody
  simp only []
  split_ifs <;>
    simp only [Step.trace, handleErrors, List.append_assoc, List.cons_append, List.nil_append] <;>
    exact ⟨_, rfl⟩

/-- The calls of a loop extend the calls made before it. -/
theorem encryptLoop_grows (b : Backend σ) (c : Nat) (pt : Bytes) (n : Int) (iv : Bytes)
    (k : Nat) (st : LoopState σ) :
    ∃ tl, (encryptLoop b c (Source.separate pt) n iv k st).trace = st.m.trace ++ tl := by
  cases hl : encryptLoop b c (Source.separate pt) n iv k st with
  | next st1 => exact ⟨_, encryptLoop_next_trace b c pt n iv k st st1 hl⟩
  | halt m cb =>
    obtain ⟨tl, ht, -⟩ := encryptLoop_halt_trace b c pt n iv k st m cb hl
    exact ⟨tl, ht⟩

/-- The first call of a loop of at least one iteration is the initialisation
with the iv. -/
theorem encryptLoop_first (b : Backend σ) (c : Nat) (pt : Bytes) (n : Int) (iv : Bytes)
    (k : Nat) (st : LoopState σ) :
    ∃ ret tl, (encryptLoop b c (Source.separate pt) n iv (k + 1) st).trace =
      st.m.trace ++ Call.EVP_EncryptInit_ex c none none (some iv) ret :: tl := by
  obtain ⟨ret, tl, hb⟩ := encryptBody_first b c pt n iv st
  rw [encryptLoop_succ]
  cases hbody : encryptBody b c pt n iv st with
  | next st1 =>
    rw [hbody] at hb
    simp only [Step.trace] at hb
    obtain ⟨tl2, h2⟩ := encryptLoop_grows b c pt n iv k st1
    refine ⟨ret, tl ++ tl2, ?_⟩
    simp only []
    rw [h2, hb]
    simp
  | halt m cb =>
    rw [hbody] at hb
    exact ⟨ret, tl, hb⟩

/-- Once the iv initialisation has succeeded, an iteration calls the update
with the plaintext and the length as given; when the update fails the
iteration ends right there in `handleErrors`. -/
theorem encryptBody_reaches_update (b : Backend σ) (c : Nat) (pt : Bytes) (n : Int)
    (iv : Bytes) (st : LoopState σ)
    (hv : (b.EVP_EncryptInit_ex c none none (some iv) st.m.lib).1 = 1) :
    ∃ tl, (encryptBody b c pt n iv st).trace =
        st.m.trace ++ (Call.EVP_EncryptInit_ex c none none (some iv) 1 ::
          Call.EVP_EncryptUpdate c pt n (b.EVP_EncryptUpdate c pt n
            (b.EVP_EncryptInit_ex c none none (some iv) st.m.lib).2).ret :: tl) ∧
      ((b.EVP_EncryptUpdate c pt n
          (b.EVP_EncryptInit_ex c none none (some iv) st.m.lib).2).ret ≠ 1 →
        tl = [Call.ERR_print_errors_fp, Call.abort] ∧
        ∃ m cb, encryptBody b c pt n iv st = Step.halt m cb) := by
  by_cases h2 : (b.EVP_EncryptUpdate c pt n
      (b.EVP_EncryptInit_ex c none none (some iv) st.m.lib).2).ret = 1
  · by_cases h3 : (b.EVP_EncryptFinal_ex c (b.EVP_EncryptUpdate c pt n
        (b.EVP_EncryptInit_ex c none none (some iv) st.m.lib).2).state).ret = 1
    · refine ⟨[Call.EVP_EncryptFinal_ex c 1], ?_, fun hne => absurd h2 hne⟩
      simp only [encryptBody, hv, h2, h3, ne_eq, not_true_eq_false, if_false, Step.trace,
        List.append_assoc, List.cons_append, List.nil_append]
    · refine ⟨[Call.EVP_EncryptFinal_ex c (b.EVP_EncryptFinal_ex c (b.EVP_EncryptUpdate c pt n
          (b.EVP_EncryptInit_ex c none none (some iv) st.m.lib).2).state).ret,
        Call.ERR_print_errors_fp, Call.abort], ?_, fun hne => absurd h2 hne⟩
      simp only [encryptBody, hv, h2, h3, ne_eq, not_true_eq_false, not_false_eq_true, if_false,
        if_true, Step.trace, handleErrors, List.append_assoc, List.cons_append, List.nil_append]
  · refine ⟨[Call.ERR_print_errors_fp, Call.abort], ?_, fun _ => ⟨rfl, ?_⟩⟩
    · simp only [encryptBody, hv, h2, ne_eq, not_true_eq_false, not_false_eq_true, if_false,
        if_true, Step.trace, handleErrors, List.append_assoc, List.cons_append, List.nil_append]
    · simp only [encryptBody, hv, h2, ne_eq, not_true_eq_false, not_false_eq_true, if_false,
        if_true]
      exact ⟨_, _, rfl⟩

/-- The same for a loop of at least one iteration. -/
theorem encryptLoop_reaches_update (b : Backend σ) (c : Nat) (pt : Bytes) (n : Int)
    (iv : Bytes) (k : Nat) (st : LoopState σ)
    (hv : (b.EVP_EncryptInit_ex c none none (some iv) st.m.lib).1 = 1) :
    ∃ tl, (encryptLoop b c (Source.separate pt) n iv (k + 1) st).trace =
        st.m.trace ++ (Call.EVP_EncryptInit_ex c none none (some iv) 1 ::
          Call.EVP_EncryptUpdate c pt n (b.EVP_EncryptUpdate c pt n
            (b.EVP_EncryptInit_ex c none none (some iv) st.m.lib).2).ret :: tl) ∧
      ((b.EVP_EncryptUpdate c pt n
          (b.EVP_EncryptInit_ex c none none (some iv) st.m.lib).2).ret ≠ 1 →
        tl = [Call.ERR_print_errors_fp, Call.abort] ∧
        ∃ m cb, encryptLoop b c (Source.separate pt) n iv (k + 1) st = Step.halt m cb) := by
  obtain ⟨tl, ht, hfail⟩ := encryptBody_reaches_update b c pt n iv st hv
  rw [encryptLoop_succ]
  cases hbody : encryptBody b c pt n iv st with
  | next st1 =>
    rw [hbody] at ht
    simp only [Step.trace] at ht
    obtain ⟨tl2, h2⟩ := encryptLoop_grows b c pt n iv k st1
    refine ⟨tl ++ tl2, ?_, fun hne => ?_⟩
    · simp only []
      rw [h2, ht]
      simp
    · obtain ⟨-, m, cb, hh⟩ := hfail hne
      rw [hbody] at hh
      cases hh
  | halt m cb =>
    rw [hbody] at ht
    refine ⟨tl, ht, fun hne => ⟨(hfail hne).1, m, cb, rfl⟩⟩

/-- C4, as stated, fails. With a key whose halves differ and a 16-byte tweak,
`encrypt` on a 15-byte plaintext does not return an error: the 15 bytes reach
`EVP_EncryptUpdate`, which fails, and the process is aborted. -/
theorem short_plaintext_aborts :
    (encrypt toy start pt15 15 keyAB tweak16 buf16).outcome = Outcome.aborted ∧
    (encrypt toy start pt15 15 keyAB tweak16 buf16).m.trace =
      [Call.ERR_load_crypto_strings, Call.OpenSSL_add_all_algorithms, Call.EVP_CIPHER_CTX_new 1,
        Call.EVP_EncryptInit_ex 1 (some Cipher.aes_256_xts) (some keyAB) none 1,
        Call.EVP_EncryptInit_ex 1 none none (some tweak16) 1,
        Call.EVP_EncryptUpdate 1 pt15 15 0,
        Call.ERR_print_errors_fp, Call.abort] := by
  decide

/-- C4, amended. `encrypt` has no length check of its own: whatever
`plaintext_len` is, once the context exists and the key and iv initialisations
have succeeded, `encrypt` calls `EVP_EncryptUpdate` with the plaintext and
`plaintext_len` as given. When that call fails, `encrypt` ends right there in
the error print and `abort()`; when no backend call fails, `encrypt` returns. -/
theorem min_length_boundary (b : Backend σ) (s : σ) (plaintext : Bytes) (plaintext_len : Int)
    (key iv cbuf : Bytes) (hc : encryptCtx b s ≠ 0) (hk : (encryptKeyInit b s key).1 = 1)
    (hv : (encryptFirstIvInit b s key iv).1 = 1) :
    (∃ tl, (encrypt b ⟨s, []⟩ plaintext plaintext_len key iv cbuf).m.trace =
        [Call.ERR_load_crypto_strings, Call.OpenSSL_add_all_algorithms,
          Call.EVP_CIPHER_CTX_new (encryptCtx b s),
          Call.EVP_EncryptInit_ex (encryptCtx b s) (some Cipher.aes_256_xts) (some key) none 1,
          Call.EVP_EncryptInit_ex (encryptCtx b s) none none (some iv) 1,
          Call.EVP_EncryptUpdate (encryptCtx b s) plaintext plaintext_len
            (encryptFirstUpdate b s plaintext plaintext_len key iv).ret] ++ tl ∧
      ((encryptFirstUpdate b s plaintext plaintext_len key iv).ret ≠ 1 →
        tl = [Call.ERR_print_errors_fp, Call.abort] ∧
        (encrypt b ⟨s, []⟩ plaintext plaintext_len key iv cbuf).outcome = Outcome.aborted)) ∧
    ((∀ e ∈ (encrypt b ⟨s, []⟩ plaintext plaintext_len key iv cbuf).m.trace,
        e.succeeded = true) →
      ∃ v, (encrypt b ⟨s, []⟩ plaintext plaintext_len key iv cbuf).outcome =
        Outcome.returned v) := by
  refine ⟨?_, fun hok => encryptIter_returns 1000000 b s plaintext plaintext_len key iv cbuf hok⟩
  unfold encryptCtx at hc
  unfold encryptKeyInit encryptCtx at hk
  unfold encryptFirstIvInit encryptKeyInit encryptCtx at hv
  unfold encryptFirstUpdate encryptFirstIvInit encryptKeyInit encryptCtx
  obtain ⟨tl, hl, hfail⟩ := encryptLoop_reaches_update b
    (b.EVP_CIPHER_CTX_new (initialize_library b ⟨s, []⟩).lib).1 plaintext plaintext_len iv 999999
    ⟨⟨(b.EVP_EncryptInit_ex (b.EVP_CIPHER_CTX_new (initialize_library b ⟨s, []⟩).lib).1
        (some Cipher.aes_256_xts) (some key) none
        (b.EVP_CIPHER_CTX_new (initialize_library b ⟨s, []⟩).lib).2).2,
      (initialize_library b ⟨s, []⟩).trace ++
        [Call.EVP_CIPHER_CTX_new (b.EVP_CIPHER_CTX_new (initialize_library b ⟨s, []⟩).lib).1] ++
        [Call.EVP_EncryptInit_ex (b.EVP_CIPHER_CTX_new (initialize_library b ⟨s, []⟩).lib).1
          (some Cipher.aes_256_xts) (some key) none 1]⟩, cbuf, 0, 0⟩ hv
  unfold encrypt encryptIter
  simp only [hc, hk, if_false, ne_eq, not_true_eq_false]
  revert hl hfail
  generalize encryptLoop b _ (Source.separate plaintext) plaintext_len iv (999999 + 1) _ = L
  intro hl hfail
  cases L with
  | next st =>
    simp only [Step.trace] at hl
    refine ⟨tl ++ [Call.EVP_CIPHER_CTX_free
      (b.EVP_CIPHER_CTX_new (initialize_library b ⟨s, []⟩).lib).1,
      Call.EVP_cleanup, Call.ERR_free_strings], ?_, fun hne => ?_⟩
    · simp [cleanup, hl, initialize_library]
    · obtain ⟨-, m, cb, hh⟩ := hfail hne
      cases hh
  | halt m cb =>
    simp only [Step.trace] at hl
    refine ⟨tl, ?_, fun hne => ⟨(hfail hne).1, rfl⟩⟩
    simp [hl, initialize_library]

/-- The amended C4 on the concrete backend: 15 bytes reach the update, which
refuses them, and the run is aborted; 16 bytes go through and the run returns. -/
theorem min_length_boundary_witness :
    encryptCtx toy start.lib ≠ 0 ∧ (encryptKeyInit toy start.lib keyAB).1 = 1 ∧
    (encryptFirstIvInit toy start.lib keyAB tweak16).1 = 1 ∧
    (encryptFirstUpdate toy start.lib pt15 15 keyAB tweak16).ret ≠ 1 ∧
    (encrypt toy ⟨start.lib, []⟩ pt15 15 keyAB tweak16 buf16).outcome = Outcome.aborted ∧
    (∃ v, (encrypt toy ⟨start.lib, []⟩ pt16 16 keyAB tweak16 buf16).outcome =
      Outcome.returned v) := by
  have hret : (encrypt toy ⟨start.lib, []⟩ pt16 16 keyAB tweak16 buf16).outcome =
      Outcome.returned 16 :=
    (encrypt_xts toy toyView toyEnc toyDec toy_xts ⟨start.lib, []⟩ pt16
      16 keyAB tweak16 buf16 (by decide) (by decide) (by decide) (by decide) (by decide)).1
  have hok := encrypt_succeeded toy start.lib pt16 16 keyAB tweak16 buf16 16 hret
  obtain ⟨tl, -, hfail⟩ := (min_length_boundary toy start.lib pt15 15 keyAB tweak16 buf16
    (by decide) (by decide) (by decide)).1
  exact ⟨by decide, by decide, by decide, by decide, (hfail (by decide)).2,
    (min_length_boundary toy start.lib pt16 16 keyAB tweak16 buf16
      (by decide) (by decide) (by decide)).2 hok⟩

/-- C5, as stated, fails. With an empty key and an empty tweak `decrypt` is not
rejected: the backend initialisation is called with them and `decrypt` returns
16; and `encrypt` hands the empty key and the empty tweak to the backend
initialisation just the same. -/
theorem empty_key_and_tweak_reach_backend :
    (decrypt toy start pt16 16 [] [] buf16).outcome = Outcome.returned 16 ∧
    Call.EVP_DecryptInit_ex 1 (some Cipher.aes_256_xts) (some []) (some []) 1 ∈
      (decrypt toy start pt16 16 [] [] buf16).m.trace ∧
    Call.EVP_EncryptInit_ex 1 (some Cipher.aes_256_xts) (some []) none 1 ∈
      (encrypt toy start pt15 15 [] [] buf16).m.trace ∧
    Call.EVP_EncryptInit_ex 1 none none (some []) 1 ∈
      (encrypt toy start pt15 15 [] [] buf16).m.trace := by
  decide

/-- C5, amended. `encrypt` and `decrypt` do not look at the key or at the
tweak, whatever their lengths. Once the context exists, the first cipher call
of `encrypt` is `EVP_EncryptInit_ex` with the key as given, followed, when it
succeeds, by `EVP_EncryptInit_ex` with the iv as given; and the first cipher
call of `decrypt` is `EVP_DecryptInit_ex` with the key and the iv as given. -/
theorem key_and_tweak_unchecked (b : Backend σ) (s : σ) (input : Bytes) (len : Int)
    (key iv output : Bytes)
    (hc : (b.EVP_CIPHER_CTX_new (initialize_library b ⟨s, []⟩).lib).1 ≠ 0) :
    (∃ ret tl, (encrypt b ⟨s, []⟩ input len key iv output).m.trace =
        [Call.ERR_load_crypto_strings, Call.OpenSSL_add_all_algorithms,
          Call.EVP_CIPHER_CTX_new (b.EVP_CIPHER_CTX_new (initialize_library b ⟨s, []⟩).lib).1,
          Call.EVP_EncryptInit_ex (b.EVP_CIPHER_CTX_new (initialize_library b ⟨s, []⟩).lib).1
            (some Cipher.aes_256_xts) (some key) none ret] ++ tl ∧
        (ret = 1 → ∃ ret2 tl2, tl = Call.EVP_EncryptInit_ex
          (b.EVP_CIPHER_CTX_new (initialize_library b ⟨s, []⟩).lib).1 none none (some iv) ret2
            :: tl2)) ∧
    (∃ ret tl, (decrypt b ⟨s, []⟩ input len key iv output).m.trace =
        [Call.ERR_load_crypto_strings, Call.OpenSSL_add_all_algorithms,
          Call.EVP_CIPHER_CTX_new (b.EVP_CIPHER_CTX_new (initialize_library b ⟨s, []⟩).lib).1,
          Call.EVP_DecryptInit_ex (b.EVP_CIPHER_CTX_new (initialize_library b ⟨s, []⟩).lib).1
            (some Cipher.aes_256_xts) (some key) (some iv) ret] ++ tl) := by
  constructor
  · refine ⟨(b.EVP_EncryptInit_ex (b.EVP_CIPHER_CTX_new (initialize_library b ⟨s, []⟩).lib).1
      (some Cipher.aes_256_xts) (some key) none
      (b.EVP_CIPHER_CTX_new (initialize_library b ⟨s, []⟩).lib).2).1, ?_⟩
    unfold encrypt encryptIter
    simp only [hc, if_false]
    split_ifs with h2
    · refine ⟨[Call.ERR_print_errors_fp, Call.abort], ?_, fun h1 => absurd h1 h2⟩
      simp [handleErrors, initialize_library]
    · obtain ⟨ret2, tl2, hl⟩ := encryptLoop_first b
        (b.EVP_CIPHER_CTX_new (initialize_library b ⟨s, []⟩).lib).1 input len iv 999999
        ⟨⟨(b.EVP_EncryptInit_ex (b.EVP_CIPHER_CTX_new (initialize_library b ⟨s, []⟩).lib).1
            (some Cipher.aes_256_xts) (some key) none
            (b.EVP_CIPHER_CTX_new (initialize_library b ⟨s, []⟩).lib).2).2,
          (initialize_library b ⟨s, []⟩).trace ++
            [Call.EVP_CIPHER_CTX_new (b.EVP_CIPHER_CTX_new (initialize_library b ⟨s, []⟩).lib).1] ++
            [Call.EVP_EncryptInit_ex (b.EVP_CIPHER_CTX_new (initialize_library b ⟨s, []⟩).lib).1
              (some Cipher.aes_256_xts) (some key) none
              (b.EVP_EncryptInit_ex (b.EVP_CIPHER_CTX_new (initialize_library b ⟨s, []⟩).lib).1
                (some Cipher.aes_256_xts) (some key) none
                (b.EVP_CIPHER_CTX_new (initialize_library b ⟨s, []⟩).lib).2).1]⟩, output, 0, 0⟩
      revert hl
      generalize encryptLoop b _ (Source.separate input) len iv (999999 + 1) _ = L
      intro hl
      cases L with
      | next st =>
        simp only [Step.trace] at hl
        refine ⟨Call.EVP_EncryptInit_ex (b.EVP_CIPHER_CTX_new (initialize_library b ⟨s, []⟩).lib).1
            none none (some iv) ret2 ::
          (tl2 ++ [Call.EVP_CIPHER_CTX_free (b.EVP_CIPHER_CTX_new (initialize_library b ⟨s, []⟩).lib).1,
            Call.EVP_cleanup, Call.ERR_free_strings]), ?_,
          fun _ => ⟨ret2, _, rfl⟩⟩
        simp [cleanup, hl, initialize_library]
      | halt m cb =>
        simp only [Step.trace] at hl
        refine ⟨Call.EVP_EncryptInit_ex (b.EVP_CIPHER_CTX_new (initialize_library b ⟨s, []⟩).lib).1
          none none (some iv) ret2 :: tl2, ?_, fun _ => ⟨ret2, _, rfl⟩⟩
        simp [hl, initialize_library]
  · refine ⟨(b.EVP_DecryptInit_ex (b.EVP_CIPHER_CTX_new (initialize_library b ⟨s, []⟩).lib).1
      (some Cipher.aes_256_xts) (some key) (some iv)
      (b.EVP_CIPHER_CTX_new (initialize_library b ⟨s, []⟩).lib).2).1, ?_⟩
    unfold decrypt
    simp only [hc, if_false]
    split_ifs <;>
      simp only [handleErrors, cleanup, initialize_library, List.append_assoc, List.cons_append,
        List.nil_append] <;>
      exact ⟨_, rfl⟩

/-- The amended C5 on the concrete backend, with an empty key and an empty tweak. -/
theorem key_and_tweak_unchecked_witness :
    (toy.EVP_CIPHER_CTX_new (initialize_library toy ⟨start.lib, []⟩).lib).1 ≠ 0 ∧
    ∃ ret tl, (decrypt toy ⟨start.lib, []⟩ pt16 16 [] [] buf16).m.trace =
      [Call.ERR_load_crypto_strings, Call.OpenSSL_add_all_algorithms,
        Call.EVP_CIPHER_CTX_new (toy.EVP_CIPHER_CTX_new
          (initialize_library toy ⟨start.lib, []⟩).lib).1,
        Call.EVP_DecryptInit_ex (toy.EVP_CIPHER_CTX_new
          (initialize_library toy ⟨start.lib, []⟩).lib).1
          (some Cipher.aes_256_xts) (some []) (some []) ret] ++ tl :=
  ⟨by decide, (key_and_tweak_unchecked toy start.lib pt16 16 [] [] buf16 (by decide)).2⟩

end AesXts
